import Mathlib

/-!
# Stella: the 3E bank-switched cartridge and the TIA delay queue

A shallow embedding of `src/emucore/Cart3E.cxx` (class `Cartridge3E`) and of
`src/emucore/tia/core_6502ts/DelayQueue.hxx` (template `DelayQueue::execute`),
followed by theorems about them.

Conventions of the embedding:

* machine integers are natural numbers; a conversion that can lose bits is
  written out as an explicit remainder (`toUInt8`, `toUInt16`, `toUInt32`);
* a C array is a function from subscripts to elements together with its
  declared length; a subscript outside the declared length is undefined
  behaviour in C++ and is reported as `Fault.outOfBounds`;
* a member function that changes the object returns the new object;
* an operation that cannot finish normally returns `Except.error`.
-/

namespace Stella

/-- Ways in which an embedded operation fails to return normally. -/
inductive Fault where
  /-- An array subscript outside the declared bounds (undefined behaviour). -/
  | outOfBounds
  /-- An integer remainder with divisor zero (undefined behaviour). -/
  | divideByZero
  /-- A failed `assert`. -/
  | assertion
  /-- The exception `std::out_of_range` leaving `vector::at`. -/
  | outOfRange
  deriving DecidableEq, Repr

/-- Conversion of an integer value to `uInt8`. -/
def toUInt8 (x : Int) : Nat := (x % 256).toNat

/-- Conversion of an integer value to `uInt16`. -/
def toUInt16 (x : Int) : Nat := (x % 65536).toNat

/-- Conversion of an integer value to `uInt32`. -/
def toUInt32 (x : Int) : Nat := (x % 4294967296).toNat

/-- Conversion of a `uInt8` to (signed, 8-bit) `char`. -/
def toChar (b : Nat) : Int := if b % 256 < 128 then (b % 256 : Nat) else ((b % 256 : Nat) : Int) - 256

/-! ## The System collaborator -/

/-- A direct-access base pointer: the address of one element of the cartridge's
ROM image buffer or of its RAM buffer. -/
inductive BasePtr where
  | image (index : Nat)
  | ram (index : Nat)
  deriving DecidableEq, Repr

/-- The device a page falls back to. -/
inductive Device where
  | cart3E
  | other
  deriving DecidableEq, Repr

/-- Modelled from the spec: the record `System::PageAccess` (`System.hxx` is
not among the sources), a page with "an optional direct-read pointer, an
optional direct-write pointer, and a reference to a fallback device". The
field names are those `Cart3E.cxx` assigns; a null base pointer is `none`. -/
structure PageAccess where
  directPeekBase : Option BasePtr
  directPokeBase : Option BasePtr
  device : Device
  deriving DecidableEq, Repr

/-- Modelled from the spec: the System collaborator (`System.hxx` is not among
the sources), which "exposes page geometry (page size/shift, page mask), a
method to install/overwrite a page's access descriptor, a bus-wide
chip-register write entry point, a floating bus value query, and a
random-generator accessor". Only what `Cart3E.cxx` calls is kept. -/
structure System where
  pageShift : Nat
  pageMask : Nat
  pageAccessTable : Nat → PageAccess
  /-- Every `tia().poke(address, value)` received so far, oldest first. -/
  tiaPokes : List (Nat × Nat)
  /-- What `getDataBusState(hmask)` yields, before conversion to `uInt8`. -/
  dataBusState : Nat → Nat
  /-- The values `randGenerator().next()` yields, in order. -/
  randomValues : Nat → Nat
  /-- How many random values have been drawn. -/
  randomPos : Nat

namespace System

/-- Modelled from the spec: `setPageAccess(page, access)` overwrites the
access descriptor of one page. -/
def setPageAccess (sys : System) (page : Nat) (access : PageAccess) : System :=
  { sys with pageAccessTable := fun p => if p = page then access else sys.pageAccessTable p }

/-- Modelled from the spec: `getDataBusState(hmask)`, the floating-bus value,
a `uInt8`. -/
def getDataBusState (sys : System) (hmask : Nat) : Nat :=
  sys.dataBusState hmask % 256

/-- Modelled from the spec: `tia().poke(address, value)`, the bus-wide
chip-register write, recorded in `tiaPokes`. -/
def tiaPoke (sys : System) (address value : Nat) : System :=
  { sys with tiaPokes := sys.tiaPokes ++ [(address, value)] }

end System

/-- The loop `for(address = start; address < limit; address += (1 << shift))
setPageAccess(address >> shift, access(address))`. The first argument bounds the
number of iterations; `limit - start` always suffices, the stride being at
least one. -/
def pageLoop (shift limit : Nat) (access : Nat → PageAccess) : Nat → Nat → System → System
  | 0, _, sys => sys
  | fuel + 1, address, sys =>
    if address < limit then
      pageLoop shift limit access fuel (address + (1 <<< shift))
        (sys.setPageAccess (address >>> shift) (access address))
    else sys

/-- The page access table `pageLoop` leaves, in closed form: page `p` is
written when it is the page of `address + k * 2^shift` for some `k` with
`address + k * 2^shift < limit`, and then holds the access made for that
address; every other page keeps what `old` has. -/
def loopTable (shift limit : Nat) (access : Nat → PageAccess) (address : Nat)
    (old : Nat → PageAccess) : Nat → PageAccess :=
  fun p =>
    if address >>> shift ≤ p ∧ address + (p - address >>> shift) * 2 ^ shift < limit then
      access (address + (p - address >>> shift) * 2 ^ shift)
    else old p

/-! ## The Serializer collaborator -/

/-- One value in a save-state stream. -/
inductive Item where
  | string (s : String)
  | int (n : Int)
  | byte (b : Int)
  deriving DecidableEq, Repr

/-- Modelled from the spec: the Serializer collaborator (`Serializer.hxx` is not
among the sources), "ordered, typed put/get of strings, integers, and bytes"
that "raises a fault ... on malformed or truncated state". A stream is the list
of the values put, oldest first; a `get` takes the first value and faults
(`none`) when the stream is exhausted or the value has another type. A `put`
into this in-memory stream never faults. -/
abbrev Serializer := List Item

namespace Serializer

def putString (out : Serializer) (s : String) : Serializer := out ++ [.string s]

def putInt (out : Serializer) (n : Int) : Serializer := out ++ [.int n]

def putByte (out : Serializer) (b : Int) : Serializer := out ++ [.byte b]

def getString : Serializer → Option (String × Serializer)
  | .string s :: rest => some (s, rest)
  | _ => none

def getInt : Serializer → Option (Int × Serializer)
  | .int n :: rest => some (n, rest)
  | _ => none

def getByte : Serializer → Option (Int × Serializer)
  | .byte b :: rest => some (b, rest)
  | _ => none

end Serializer

/-! ## Cartridge3E -/

/-- The object state of `Cartridge3E`, with the members `Cart3E.cxx` uses
(their declarations, in `Cart3E.hxx` and `Cart.hxx`, are not among the
sources): `myImage` has `mySize` elements (`uInt32 mySize`), `myRam` has 32768,
`myCurrentBank` is a `uInt16`, `myBankLocked` is what `bankLocked()` reports.
The System the cartridge is installed in is kept by value. -/
structure Cartridge3E where
  myImage : Nat → Nat
  mySize : Nat
  myRam : Nat → Nat
  myCurrentBank : Nat
  myStartBank : Nat
  myBankLocked : Bool
  myBankChanged : Bool
  mySystem : System
  /-- Addresses passed to `triggerReadFromWritePort`, oldest first. -/
  readFromWritePort : List Nat

namespace Cartridge3E

/-- Length of the array `myRam`. -/
def ramSize : Nat := 32768

/-- The read `myImage[index]`. -/
def readImage (c : Cartridge3E) (index : Nat) : Except Fault Nat :=
  if index < c.mySize then .ok (c.myImage index) else .error .outOfBounds

/-- The read `myRam[index]`. -/
def readRam (c : Cartridge3E) (index : Nat) : Except Fault Nat :=
  if index < ramSize then .ok (c.myRam index) else .error .outOfBounds

/-- The store `myImage[index] = value`. -/
def writeImage (c : Cartridge3E) (index value : Nat) : Except Fault Cartridge3E :=
  if index < c.mySize then .ok { c with myImage := Function.update c.myImage index value }
  else .error .outOfBounds

/-- The store `myRam[index] = value`. -/
def writeRam (c : Cartridge3E) (index value : Nat) : Except Fault Cartridge3E :=
  if index < ramSize then .ok { c with myRam := Function.update c.myRam index value }
  else .error .outOfBounds

/-- Modelled from the spec: `bankLocked()` of the base class (`Cart.hxx` is not
among the sources), the "boolean suppressing further bank changes". -/
def bankLocked (c : Cartridge3E) : Bool := c.myBankLocked

/-- Modelled from the spec: `triggerReadFromWritePort(address)` of the base
class (`Cart.hxx` is not among the sources), a notification for tooling; it is
recorded and touches nothing else. -/
def triggerReadFromWritePort (c : Cartridge3E) (address : Nat) : Cartridge3E :=
  { c with readFromWritePort := c.readFromWritePort ++ [address] }

/-- The loop of `bank` that maps the ROM slice starting at `offset` into
0x1000-0x17FF ("Map ROM image into the system"). -/
def mapRomPages (sys : System) (offset : Nat) : System :=
  let shift := sys.pageShift
  pageLoop shift 0x1800
    (fun address =>
      { device := .cart3E, directPokeBase := none,
        directPeekBase := some (.image (offset + (address &&& 0x07FF))) })
    (0x1800 - 0x1000) 0x1000 sys

/-- The two loops of `bank` that map the RAM slice starting at `offset`: the
read port into 0x1000-0x13FF, then the write port into 0x1400-0x17FF. -/
def mapRamPages (sys : System) (offset : Nat) : System :=
  let shift := sys.pageShift
  -- Map read-port RAM image into the system
  let sys := pageLoop shift 0x1400
    (fun address =>
      { device := .cart3E, directPokeBase := none,
        directPeekBase := some (.ram (offset + (address &&& 0x03FF))) })
    (0x1400 - 0x1000) 0x1000 sys
  -- Map write-port RAM image into the system
  pageLoop shift 0x1800
    (fun address =>
      { device := .cart3E, directPeekBase := none,
        directPokeBase := some (.ram (offset + (address &&& 0x03FF))) })
    (0x1800 - 0x1400) 0x1400 sys

/-- The method `Cartridge3E::bank(uInt16 bank)`. -/
def bank (c : Cartridge3E) (bank : Nat) : Except Fault Cartridge3E :=
  if c.bankLocked then .ok c
  else if bank < 256 then
    -- Make sure the bank they're asking for is reasonable
    if (bank <<< 11) < c.mySize then
      let myCurrentBank := bank
      .ok { c with myCurrentBank := myCurrentBank,
                   mySystem := mapRomPages c.mySystem (myCurrentBank <<< 11),
                   myBankChanged := true }
    else if c.mySize >>> 11 = 0 then .error .divideByZero
    else
      -- Oops, the bank they're asking for isn't valid so let's wrap it
      -- around to a valid bank number
      let myCurrentBank := bank % (c.mySize >>> 11)
      .ok { c with myCurrentBank := myCurrentBank,
                   mySystem := mapRomPages c.mySystem (myCurrentBank <<< 11),
                   myBankChanged := true }
  else
    let bank := (bank - 256) % 32
    let myCurrentBank := bank + 256
    .ok { c with myCurrentBank := myCurrentBank,
                 mySystem := mapRamPages c.mySystem (bank <<< 10),
                 myBankChanged := true }

/-- The loop of `reset` that fills `myRam[i]` for `i < 32768` with the next
random value, converted to `uInt8`. Arguments: iterations left, `i`, the number
of values drawn before the loop, the RAM. -/
def resetRam (rand : Nat → Nat) (pos : Nat) : Nat → Nat → (Nat → Nat) → (Nat → Nat)
  | 0, _, ram => ram
  | n + 1, i, ram => resetRam rand pos n (i + 1) (Function.update ram i (rand (pos + i) % 256))

/-- The method `Cartridge3E::reset()`. -/
def reset (c : Cartridge3E) : Except Fault Cartridge3E :=
  let sys := c.mySystem
  bank { c with
         myRam := resetRam sys.randomValues sys.randomPos ramSize 0 c.myRam,
         mySystem := { sys with randomPos := sys.randomPos + ramSize } }
    c.myStartBank

/-- The method `Cartridge3E::install(System& system)`. -/
def install (c : Cartridge3E) (system : System) : Except Fault Cartridge3E :=
  let shift := system.pageShift
  let mask := system.pageMask
  -- Make sure the system we're being installed in has a page size that'll work
  if 0x1800 &&& mask ≠ 0 then .error .assertion
  else
    let sys := pageLoop shift 0x40
      (fun _ => { device := .cart3E, directPeekBase := none, directPokeBase := none })
      0x40 0x00 system
    -- Setup the second segment to always point to the last ROM slice
    let sys := pageLoop shift 0x2000
      (fun j =>
        { device := .cart3E, directPokeBase := none,
          directPeekBase :=
            some (.image (((c.mySize + 4294967296 - 2048) % 4294967296 + (j &&& 0x07FF))
                            % 4294967296)) })
      (0x2000 - 0x1800) 0x1800 sys
    -- Install pages for the startup bank into the first segment
    bank { c with mySystem := sys } c.myStartBank

/-- The method `Cartridge3E::peek(uInt16 address)`: the byte read and the new
object state. -/
def peek (c : Cartridge3E) (address : Nat) : Except Fault (Nat × Cartridge3E) :=
  let peekAddress := address
  let address := address &&& 0x0FFF
  if address < 0x0800 then
    if c.myCurrentBank < 256 then
      (c.readImage ((address &&& 0x07FF) + (c.myCurrentBank <<< 11))).map (fun b => (b, c))
    else
      if address < 0x0400 then
        (c.readRam ((address &&& 0x03FF) + ((c.myCurrentBank - 256) <<< 10))).map (fun b => (b, c))
      else
        -- Reading from the write port triggers an unwanted write
        let value := c.mySystem.getDataBusState 0xFF
        if c.bankLocked then .ok (value, c)
        else
          ((c.triggerReadFromWritePort peekAddress).writeRam
              ((address &&& 0x03FF) + ((c.myCurrentBank - 256) <<< 10)) value).map
            (fun c' => (value, c'))
  else
    (c.readImage (((address &&& 0x07FF) + c.mySize + (4294967296 - 2048)) % 4294967296)).map
      (fun b => (b, c))

/-- The method `Cartridge3E::poke(uInt16 address, uInt8 value)`: the returned
flag and the new object state. -/
def poke (c : Cartridge3E) (address value : Nat) : Except Fault (Bool × Cartridge3E) :=
  let address := address &&& 0x0FFF
  -- Switch banks if necessary
  let switched :=
    if address = 0x003F then c.bank value
    else if address = 0x003E then c.bank ((value + 256) % 65536)
    else .ok c
  -- Pass the poke through to the TIA
  switched.map (fun c' => (false, { c' with mySystem := c'.mySystem.tiaPoke address value }))

/-- The method `Cartridge3E::patch(uInt16 address, uInt8 value)`: the returned
flag and the new object state. -/
def patch (c : Cartridge3E) (address value : Nat) : Except Fault (Bool × Cartridge3E) :=
  let address := address &&& 0x0FFF
  let stored :=
    if address < 0x0800 then
      if c.myCurrentBank < 256 then
        c.writeImage ((address &&& 0x07FF) + (c.myCurrentBank <<< 11)) value
      else
        c.writeRam ((address &&& 0x03FF) + ((c.myCurrentBank - 256) <<< 10)) value
    else
      c.writeImage (((address &&& 0x07FF) + c.mySize + (4294967296 - 2048)) % 4294967296) value
  stored.map (fun c' => (true, { c' with myBankChanged := true }))

/-- The loop `for(addr = 0; addr < 32768; ++addr) out.putByte((char)myRam[addr])`
of `save`. Arguments: iterations left, `addr`, the stream. -/
def saveRam (ram : Nat → Nat) : Nat → Nat → Serializer → Serializer
  | 0, _, out => out
  | n + 1, addr, out => saveRam ram n (addr + 1) (out.putByte (toChar (ram addr)))

/-- The method `Cartridge3E::save(Serializer& out)`; `cart` is the value of
`name()`. Returns the flag and the stream written. -/
def save (cart : String) (c : Cartridge3E) (out : Serializer) : Bool × Serializer :=
  let out := out.putString cart
  let out := out.putInt c.myCurrentBank
  -- Output RAM
  let out := out.putInt 32768
  (true, saveRam c.myRam 32768 0 out)

/-- How the RAM input loop of `load` ends. -/
inductive RamInput where
  /-- The loop ran to `limit`. -/
  | done (ram : Nat → Nat) (inp : Serializer)
  /-- A `getByte` faulted; the exception is caught by `load`. -/
  | fault (ram : Nat → Nat) (inp : Serializer)
  /-- A byte was stored at a subscript outside `myRam`. -/
  | outOfBounds

/-- The loop `for(addr = 0; addr < limit; ++addr) myRam[addr] = (uInt8) in.getByte()`
of `load`. Arguments: iterations left (`limit - addr`), `addr`, the RAM, the
stream. -/
def loadRam : Nat → Nat → (Nat → Nat) → Serializer → RamInput
  | 0, _, ram, inp => .done ram inp
  | n + 1, addr, ram, inp =>
    match inp.getByte with
    | none => .fault ram inp
    | some (b, inp') =>
      if addr < ramSize then loadRam n (addr + 1) (Function.update ram addr (toUInt8 b)) inp'
      else .outOfBounds

/-- The method `Cartridge3E::load(Serializer& in)`; `cart` is the value of
`name()`. Returns the flag, the new object state and the rest of the stream. -/
def load (cart : String) (c : Cartridge3E) (inp : Serializer) :
    Except Fault (Bool × Cartridge3E × Serializer) :=
  match inp.getString with
  | none => .ok (false, c, inp)
  | some (s, inp) =>
    if s ≠ cart then .ok (false, c, inp)
    else
      match inp.getInt with
      | none => .ok (false, c, inp)
      | some (b, inp) =>
        let c := { c with myCurrentBank := toUInt16 b }
        -- Input RAM
        match inp.getInt with
        | none => .ok (false, c, inp)
        | some (l, inp) =>
          let limit := toUInt32 l
          match loadRam limit 0 c.myRam inp with
          | .outOfBounds => .error .outOfBounds
          | .fault ram inp => .ok (false, { c with myRam := ram }, inp)
          | .done ram inp =>
            -- Now, go to the current bank
            let c := { c with myRam := ram }
            (c.bank c.myCurrentBank).map (fun c' => (true, c', inp))

/-- The access `bank` makes for the page at `address` when it maps the ROM
slice starting at `offset`. -/
def romAccess (offset address : Nat) : PageAccess :=
  { device := .cart3E, directPokeBase := none,
    directPeekBase := some (.image (offset + (address &&& 0x07FF))) }

/-- The access `bank` makes for the read-port page at `address` of the RAM
slice starting at `offset`. -/
def ramReadAccess (offset address : Nat) : PageAccess :=
  { device := .cart3E, directPokeBase := none,
    directPeekBase := some (.ram (offset + (address &&& 0x03FF))) }

/-- The access `bank` makes for the write-port page at `address` of the RAM
slice starting at `offset`. -/
def ramWriteAccess (offset address : Nat) : PageAccess :=
  { device := .cart3E, directPeekBase := none,
    directPokeBase := some (.ram (offset + (address &&& 0x03FF))) }

/-- The access `install` makes for the page at `j` of the fixed top slice of
an image of `size` bytes. -/
def topAccess (size j : Nat) : PageAccess :=
  { device := .cart3E, directPokeBase := none,
    directPeekBase :=
      some (.image (((size + 4294967296 - 2048) % 4294967296 + (j &&& 0x07FF)) % 4294967296)) }

/-- Modelled from the spec: the fast path of the System (`System.hxx` is not
among the sources), "a direct-pointer page never requires a virtual call for a
plain read": the byte at `base + offset`, where `base` is the direct-read base
of the page and `offset` the address masked with the page mask. -/
def directPeek (c : Cartridge3E) (base : BasePtr) (offset : Nat) : Except Fault Nat :=
  match base with
  | .image index => c.readImage (index + offset)
  | .ram index => c.readRam (index + offset)

/-- The bank selector `currentBank` designates a ROM bank of an image with
`N` banks of 2048 bytes, or one of the 32 RAM banks. -/
def validBank (N currentBank : Nat) : Prop :=
  (currentBank < 256 ∧ currentBank < N) ∨ (256 ≤ currentBank ∧ currentBank < 288)

instance (N currentBank : Nat) : Decidable (validBank N currentBank) := by
  unfold validBank; infer_instance

/-- The values `saveRam` puts for the `n` cells of `ram` from `addr` on. -/
def ramBytes (ram : Nat → Nat) : Nat → Nat → List Item
  | 0, _ => []
  | n + 1, addr => .byte (toChar (ram addr)) :: ramBytes ram n (addr + 1)

end Cartridge3E

/-! ## DelayQueue -/

/-- Modelled from the spec: the record `DelayQueueMember::Entry`
(`DelayQueueMember.hxx` is not among the sources), an "(address, value)" pair
of two `uInt8`. -/
structure Entry where
  address : Nat
  value : Nat
  deriving DecidableEq, Repr

/-- Modelled from the spec: `DelayQueueMember` (`DelayQueueMember.hxx` is not
among the sources), "a reusable bucket: ordered sequence of (address, value)
pairs". Iterating visits the entries in insertion order; `clear()` leaves the
empty sequence. -/
abbrev DelayQueueMember := List Entry

/-- The object state of `DelayQueue`: `vector<DelayQueueMember> myMembers`,
`uInt8 myIndex` and `uInt8 myIndices[0xFF]`. -/
structure DelayQueue where
  myMembers : List DelayQueueMember
  myIndex : Nat
  myIndices : Nat → Nat

namespace DelayQueue

/-- Length of the array `myIndices`, as declared. -/
def indicesSize : Nat := 0xFF

/-- The loop `for (auto&& entry : currentMember)` of `execute`: calls the
executor, then stores `myIndices[entry.address] = 0xFF`. The executor acts on a
state of its own. -/
def executeEntries {σ : Type} (executor : Nat → Nat → σ → σ) :
    List Entry → (Nat → Nat) → σ → Except Fault ((Nat → Nat) × σ)
  | [], indices, s => .ok (indices, s)
  | entry :: rest, indices, s =>
    let s := executor entry.address entry.value s
    if entry.address < indicesSize then
      executeEntries executor rest (Function.update indices entry.address 0xFF) s
    else .error .outOfBounds

/-- The method `DelayQueue::execute(T executor)`: the new queue and the new
state of the executor. -/
def execute {σ : Type} (q : DelayQueue) (executor : Nat → Nat → σ → σ) (s : σ) :
    Except Fault (DelayQueue × σ) :=
  match q.myMembers[q.myIndex]? with
  | none => .error .outOfRange
  | some currentMember =>
    match executeEntries executor currentMember q.myIndices s with
    | .error e => .error e
    | .ok (indices, s) =>
      .ok ({ myMembers := q.myMembers.set q.myIndex [],
             myIndex := (q.myIndex + 1) % q.myMembers.length % 256,
             myIndices := indices }, s)

/-- The first argument counts consecutive calls of `execute` with the same
executor and no `push` in between. -/
def executeTimes {σ : Type} (executor : Nat → Nat → σ → σ) :
    Nat → DelayQueue → σ → Except Fault (DelayQueue × σ)
  | 0, q, s => .ok (q, s)
  | k + 1, q, s =>
    match q.execute executor s with
    | .error e => .error e
    | .ok (q', s') => executeTimes executor k q' s'

/-- An executor that records its calls, oldest first. -/
def recordCall (address value : Nat) (calls : List (Nat × Nat)) : List (Nat × Nat) :=
  calls ++ [(address, value)]

end DelayQueue

/-! ## Sample objects -/

/-- A System with 64-byte pages, no page claimed yet, a data bus floating at
0xA5 and a random generator counting upwards. -/
def sampleSystem : System :=
  { pageShift := 6, pageMask := 0x3F,
    pageAccessTable := fun _ => { directPeekBase := none, directPokeBase := none, device := .other },
    tiaPokes := [], dataBusState := fun _ => 0xA5, randomValues := fun i => i, randomPos := 0 }

/-- A cartridge with `banks` ROM banks whose byte at `i` is `i % 251`, RAM byte
`i` equal to `i % 7`, and the given selector and lock. -/
def sampleCart (banks currentBank : Nat) (locked : Bool) : Cartridge3E :=
  { myImage := fun i => i % 251, mySize := 2048 * banks, myRam := fun i => i % 7,
    myCurrentBank := currentBank, myStartBank := 0, myBankLocked := locked,
    myBankChanged := false, mySystem := sampleSystem, readFromWritePort := [] }

/-- The cartridge `sampleCart 4 0 false` after `reset`. -/
def freshCart : Cartridge3E :=
  match (sampleCart 4 0 false).reset with
  | .ok c => c
  | .error _ => sampleCart 4 0 false

/-- The cartridge `sampleCart 4 3 false` after RAM bank `256 + bank` was
selected (`bank < 32`). -/
def mapRamPagesCart (bank : Nat) : Cartridge3E :=
  { sampleCart 4 3 false with
    myCurrentBank := bank + 256, mySystem := Cartridge3E.mapRamPages sampleSystem (bank <<< 10),
    myBankChanged := true }

/-- A queue of three buckets, cursor on the second, whose second bucket holds
writes to the addresses 0x2C and 0xFF. -/
def sampleQueue : DelayQueue :=
  { myMembers := [[], [⟨0x2C, 7⟩, ⟨0xFF, 9⟩], [⟨0x10, 1⟩]], myIndex := 1,
    myIndices := fun a => if a = 0x2C ∨ a = 0xFF then 1 else if a = 0x10 then 2 else 0xFF }

/-- A queue of three buckets, cursor on the third, every address below 0xFF. -/
def smallQueue : DelayQueue :=
  { myMembers := [[⟨0x2C, 7⟩], [], [⟨0x10, 1⟩, ⟨0x11, 2⟩]], myIndex := 2,
    myIndices := fun a => if a = 0x2C then 0 else if a = 0x10 ∨ a = 0x11 then 2 else 0xFF }

/-- A queue of two buckets, cursor on the first, whose second bucket holds a
write to the address 0xFF. -/
def lastAddressQueue : DelayQueue :=
  { myMembers := [[⟨0x2C, 7⟩], [⟨0xFF, 9⟩]], myIndex := 0,
    myIndices := fun a => if a = 0x2C then 0 else if a = 0xFF then 1 else 0xFF }

/-- A save state with the right tag for `"Cartridge3E"` that announces, and
carries, 32769 bytes of RAM. -/
def overlongState : Serializer :=
  .string "Cartridge3E" :: .int 0 :: .int 32769 :: List.replicate 32769 (.byte 0)

/-- A System with 2048-byte pages, which `install` accepts
(`0x1800 & 0x07FF = 0`). -/
def widePageSystem : System :=
  { sampleSystem with pageShift := 11, pageMask := 0x07FF }

/-- The sample cartridge in a System with 2048-byte pages. -/
def widePageCart : Cartridge3E :=
  { sampleCart 4 0 false with mySystem := widePageSystem }

/-! ## Arithmetic of the address decoding -/

theorem and_0FFF (a : Nat) : a &&& 0x0FFF = a % 4096 :=
  Nat.and_pow_two_sub_one_eq_mod a 12

theorem and_07FF (a : Nat) : a &&& 0x07FF = a % 2048 :=
  Nat.and_pow_two_sub_one_eq_mod a 11

theorem and_03FF (a : Nat) : a &&& 0x03FF = a % 1024 :=
  Nat.and_pow_two_sub_one_eq_mod a 10

theorem shl_11 (a : Nat) : a <<< 11 = a * 2048 := Nat.shiftLeft_eq a 11

theorem shl_10 (a : Nat) : a <<< 10 = a * 1024 := Nat.shiftLeft_eq a 10

theorem shr_11 (a : Nat) : a >>> 11 = a / 2048 := Nat.shiftRight_eq_div_pow a 11

theorem pageLoop_succ (shift limit : Nat) (access : Nat → PageAccess)
    (fuel address : Nat) (sys : System) :
    pageLoop shift limit access (fuel + 1) address sys
      = if address < limit then
          pageLoop shift limit access fuel (address + (1 <<< shift))
            (sys.setPageAccess (address >>> shift) (access address))
        else sys := rfl

/-- The iteration bound of `pageLoop` is never what stops the loop: once it
is at least `limit - address`, a larger bound gives the same result. -/
theorem pageLoop_fuel (shift limit : Nat) (access : Nat → PageAccess)
    (fuel address : Nat) (sys : System) (h : limit - address ≤ fuel) :
    pageLoop shift limit access (fuel + 1) address sys
      = pageLoop shift limit access fuel address sys := by
  induction fuel generalizing address sys with
  | zero =>
    have hge : ¬ address < limit := by omega
    simp only [pageLoop, hge, if_false]
  | succ fuel ih =>
    have hstride : 0 < 1 <<< shift := by
      rw [Nat.shiftLeft_eq, Nat.one_mul]; exact Nat.two_pow_pos shift
    rw [pageLoop_succ shift limit access (fuel + 1) address sys,
      pageLoop_succ shift limit access fuel address sys]
    by_cases hlt : address < limit
    · rw [if_pos hlt, if_pos hlt]
      exact ih _ _ (by omega)
    · rw [if_neg hlt, if_neg hlt]

namespace Cartridge3E

/-- The ROM bank `bank` leaves selected in an image of `2048 * N` bytes. -/
theorem bank_rom {c : Cartridge3E} {N b : Nat} (hS : c.mySize = 2048 * N) (hN : 0 < N)
    (hu : c.myBankLocked = false) (hb : b < 256) :
    c.bank b = .ok { c with myCurrentBank := b % N,
                            mySystem := mapRomPages c.mySystem ((b % N) <<< 11),
                            myBankChanged := true } := by
  have hdiv : c.mySize / 2048 = N := by rw [hS]; exact Nat.mul_div_cancel_left N (by norm_num)
  unfold bank bankLocked
  rw [hu, if_neg (by simp), if_pos hb, shl_11, shr_11, hdiv]
  by_cases hlt : b * 2048 < c.mySize
  · have hbN : b < N := by rw [hS] at hlt; omega
    rw [if_pos hlt, Nat.mod_eq_of_lt hbN]
  · have hne : ¬ N = 0 := by omega
    rw [if_neg hlt, if_neg hne]

/-- The RAM bank `bank` leaves selected. -/
theorem bank_ram {c : Cartridge3E} {n : Nat} (hu : c.myBankLocked = false) (hn : 256 ≤ n) :
    c.bank n = .ok { c with myCurrentBank := (n - 256) % 32 + 256,
                            mySystem := mapRamPages c.mySystem (((n - 256) % 32) <<< 10),
                            myBankChanged := true } := by
  have hlt : ¬ n < 256 := by omega
  unfold bank bankLocked
  rw [hu, if_neg (by simp), if_neg hlt]

/-- A locked cartridge ignores `bank`. -/
theorem bank_locked {c : Cartridge3E} (hl : c.myBankLocked = true) (n : Nat) :
    c.bank n = .ok c := by
  unfold bank bankLocked
  rw [hl, if_pos rfl]

/-! ## Reading through the bank window -/

/-- After `bank(b)` with `b < 256`: the selector and the byte in the lower
window. -/
theorem bank_rom_peek {c : Cartridge3E} {N b o a : Nat}
    (hS : c.mySize = 2048 * N) (hN : 0 < N) (hu : c.myBankLocked = false)
    (hb : b < 256) (ho : o < 2048) (ha : a &&& 0x0FFF = o) :
    ∃ c', c.bank b = .ok c' ∧ c'.myCurrentBank = b % N
      ∧ c'.peek a = .ok (c.myImage ((b % N) * 2048 + o), c') := by
  refine ⟨_, bank_rom hS hN hu hb, rfl, ?_⟩
  have hmod : b % N < N := Nat.mod_lt b hN
  have hcb : b % N < 256 := lt_of_le_of_lt (Nat.mod_le b N) hb
  have ho7 : o &&& 0x07FF = o := by rw [and_07FF]; exact Nat.mod_eq_of_lt ho
  have hidx : o + b % N * 2048 < c.mySize := by rw [hS]; omega
  show peek _ a = _
  unfold peek
  simp only [ha]
  rw [if_pos ho, if_pos hcb, ho7, shl_11]
  unfold readImage
  rw [if_pos hidx, Nat.add_comm]
  rfl

/-- C1: on an unlocked cartridge whose image has `2048 * N` bytes (`N ≥ 1`),
after `bank(b)` with `b < 256`, `peek` of an address whose low twelve bits are
`o < 2048` returns `image[(b mod N) * 2048 + o]` (and changes nothing). -/
theorem peek_after_bank_rom (c : Cartridge3E) (N b o a : Nat)
    (hS : c.mySize = 2048 * N) (hN : 0 < N) (hu : c.myBankLocked = false)
    (hb : b < 256) (ho : o < 2048) (ha : a &&& 0x0FFF = o) :
    ∃ c', c.bank b = .ok c' ∧ c'.peek a = .ok (c.myImage ((b % N) * 2048 + o), c') := by
  obtain ⟨c', hbank, -, hpeek⟩ := bank_rom_peek hS hN hu hb ho ha
  exact ⟨c', hbank, hpeek⟩

theorem peek_after_bank_rom_witness :
    ∃ c', (sampleCart 4 0 false).bank 6 = .ok c'
      ∧ c'.peek 0x1705 = .ok ((sampleCart 4 0 false).myImage (6 % 4 * 2048 + 0x705), c') :=
  peek_after_bank_rom (sampleCart 4 0 false) 4 6 0x705 0x1705 rfl (by decide) rfl (by decide)
    (by decide) (by decide)

/-- C2: on an unlocked cartridge, `bank(256 + r)` (every `r`, so every 16-bit
argument from 256 on) leaves
the selector at `256 + (r mod 32)`; `peek` of an address in the read port
(`(a & 0x0FFF) < 0x0400`) then returns `ram[(r mod 32) * 1024 + (a & 0x03FF)]`
and changes neither the RAM nor anything else. -/
theorem peek_after_bank_ram (c : Cartridge3E) (r a : Nat)
    (hu : c.myBankLocked = false) (ha : a &&& 0x0FFF < 0x0400) :
    ∃ c', c.bank (256 + r) = .ok c' ∧ c'.myCurrentBank = 256 + r % 32 ∧ c'.myRam = c.myRam
      ∧ c'.peek a = .ok (c.myRam (r % 32 * 1024 + (a &&& 0x03FF)), c') := by
  refine ⟨_, bank_ram hu (Nat.le_add_right 256 r), ?_, rfl, ?_⟩
  · show (256 + r - 256) % 32 + 256 = 256 + r % 32
    rw [Nat.add_sub_cancel_left, Nat.add_comm]
  · have ha8 : a &&& 0x0FFF < 0x0800 := lt_trans ha (by norm_num)
    have hcb : ¬ (256 + r - 256) % 32 + 256 < 256 := by omega
    have hmod : r % 32 < 32 := Nat.mod_lt r (by norm_num)
    have ha3 : (a &&& 0x0FFF) &&& 0x03FF = a &&& 0x03FF := by
      rw [and_03FF, and_03FF, and_0FFF]
      exact Nat.mod_mod_of_dvd a (by norm_num)
    have hlo : a &&& 0x03FF < 1024 := by rw [and_03FF]; exact Nat.mod_lt a (by norm_num)
    have hidx : (a &&& 0x03FF) + r % 32 * 1024 < ramSize := by unfold ramSize; omega
    show peek _ a = _
    unfold peek
    simp only []
    rw [if_pos ha8, if_neg hcb, if_pos ha, ha3, Nat.add_sub_cancel, Nat.add_sub_cancel_left,
      shl_10]
    unfold readRam
    rw [if_pos hidx, Nat.add_comm (a &&& 0x03FF)]
    rfl

theorem peek_after_bank_ram_witness :
    ∃ c', (sampleCart 4 0 false).bank (256 + 37) = .ok c' ∧ c'.myCurrentBank = 256 + 37 % 32
      ∧ c'.myRam = (sampleCart 4 0 false).myRam
      ∧ c'.peek 0x1234
          = .ok ((sampleCart 4 0 false).myRam (37 % 32 * 1024 + (0x1234 &&& 0x03FF)), c') :=
  peek_after_bank_ram (sampleCart 4 0 false) 37 0x1234 rfl (by decide)

/-- C3: with RAM bank `256 + k` selected (`k < 32`), `peek` of an address in the
write port (`0x0400 ≤ (a & 0x0FFF) < 0x0800`) returns the floating-bus value
`f`. Unlocked, it also stores `f` into `ram[k * 1024 + (a & 0x03FF)]` and leaves
every other RAM cell as it was; locked, the whole cartridge is unchanged. -/
theorem peek_write_port (c : Cartridge3E) (k a f : Nat)
    (hk : k < 32) (hb : c.myCurrentBank = 256 + k)
    (ha1 : 0x0400 ≤ a &&& 0x0FFF) (ha2 : a &&& 0x0FFF < 0x0800)
    (hf : c.mySystem.getDataBusState 0xFF = f) :
    (c.myBankLocked = false →
      ∃ c', c.peek a = .ok (f, c') ∧ c'.myRam (k * 1024 + (a &&& 0x03FF)) = f
        ∧ ∀ i, i ≠ k * 1024 + (a &&& 0x03FF) → c'.myRam i = c.myRam i)
    ∧ (c.myBankLocked = true → c.peek a = .ok (f, c)) := by
  have hcb : ¬ c.myCurrentBank < 256 := by omega
  have hnr : ¬ a &&& 0x0FFF < 0x0400 := by omega
  have ha3 : (a &&& 0x0FFF) &&& 0x03FF = a &&& 0x03FF := by
    rw [and_03FF, and_03FF, and_0FFF]
    exact Nat.mod_mod_of_dvd a (by norm_num)
  have hlo : a &&& 0x03FF < 1024 := by rw [and_03FF]; exact Nat.mod_lt a (by norm_num)
  have hidx : (a &&& 0x03FF) + k * 1024 < ramSize := by unfold ramSize; omega
  constructor
  · intro hu
    refine ⟨{ c.triggerReadFromWritePort a with
              myRam := Function.update c.myRam (k * 1024 + (a &&& 0x03FF)) f }, ?_, ?_, ?_⟩
    · unfold peek
      simp only []
      rw [if_pos ha2, if_neg hcb, if_neg hnr]
      unfold bankLocked
      rw [hu, if_neg (by simp), ha3, hb, Nat.add_sub_cancel_left, shl_10, hf]
      unfold writeRam
      rw [if_pos hidx, Nat.add_comm (a &&& 0x03FF)]
      rfl
    · exact Function.update_same _ _ _
    · intro i hi
      exact Function.update_noteq hi _ _
  · intro hl
    unfold peek
    simp only []
    rw [if_pos ha2, if_neg hcb, if_neg hnr]
    unfold bankLocked
    rw [hl, if_pos rfl, hf]

theorem peek_write_port_witness :
    ((sampleCart 4 (256 + 3) false).myBankLocked = false →
      ∃ c', (sampleCart 4 (256 + 3) false).peek 0x1612 = .ok (0xA5, c')
        ∧ c'.myRam (3 * 1024 + (0x1612 &&& 0x03FF)) = 0xA5
        ∧ ∀ i, i ≠ 3 * 1024 + (0x1612 &&& 0x03FF)
            → c'.myRam i = (sampleCart 4 (256 + 3) false).myRam i)
    ∧ ((sampleCart 4 (256 + 3) false).myBankLocked = true →
        (sampleCart 4 (256 + 3) false).peek 0x1612 = .ok (0xA5, sampleCart 4 (256 + 3) false)) :=
  peek_write_port (sampleCart 4 (256 + 3) false) 3 0x1612 0xA5 (by decide) rfl (by decide)
    (by decide) (by decide)

/-! ## Save and load -/

theorem toUInt8_toChar (b : Nat) (hb : b < 256) : toUInt8 (toChar b) = b := by
  unfold toUInt8 toChar
  rw [Nat.mod_eq_of_lt hb]
  split <;> omega

theorem saveRam_eq (ram : Nat → Nat) (n addr : Nat) (out : Serializer) :
    saveRam ram n addr out = out ++ ramBytes ram n addr := by
  induction n generalizing addr out with
  | zero => simp [saveRam, ramBytes]
  | succ n ih => simp [saveRam, ramBytes, ih, Serializer.putByte]

/-- Reading back what `saveRam` wrote for the cells `addr .. addr + n - 1`. -/
theorem loadRam_ramBytes (src : Nat → Nat) (hsrc : ∀ i < ramSize, src i < 256)
    (n addr : Nat) (ram : Nat → Nat) (rest : Serializer) (hn : addr + n ≤ ramSize) :
    ∃ ram', loadRam n addr ram (ramBytes src n addr ++ rest) = .done ram' rest
      ∧ (∀ i, addr ≤ i → i < addr + n → ram' i = src i)
      ∧ (∀ i, i < addr → ram' i = ram i) := by
  induction n generalizing addr ram with
  | zero =>
    exact ⟨ram, rfl, fun i h1 h2 => absurd h2 (by omega), fun _ _ => rfl⟩
  | succ n ih =>
    have haddr : addr < ramSize := by omega
    obtain ⟨ram', hload, hin, hout⟩ :=
      ih (addr + 1) (Function.update ram addr (toUInt8 (toChar (src addr)))) (by omega)
    refine ⟨ram', ?_, ?_, ?_⟩
    · simp only [loadRam, ramBytes, List.cons_append, Serializer.getByte, haddr, if_true]
      exact hload
    · intro i h1 h2
      by_cases hi : i = addr
      · subst hi
        rw [hout i (Nat.lt_succ_self i), Function.update_same]
        exact toUInt8_toChar _ (hsrc i haddr)
      · exact hin i (by omega) (by omega)
    · intro i hi
      rw [hout i (by omega), Function.update_noteq (by omega)]

/-- The stream `save` writes: the tag, the selector, 32768 and the RAM. -/
theorem save_eq (cart : String) (c : Cartridge3E) :
    c.save cart []
      = (true, .string cart :: .int c.myCurrentBank :: .int 32768 :: ramBytes c.myRam ramSize 0) := by
  unfold save
  simp only [Serializer.putString, Serializer.putInt, List.nil_append, List.cons_append]
  rw [saveRam_eq]
  rfl

/-- What `load` does with a stream that starts with the right tag and two
integers. -/
theorem load_tagged (cart : String) (c : Cartridge3E) (b l : Int) (inp : Serializer) :
    c.load cart (.string cart :: .int b :: .int l :: inp)
      = match loadRam (toUInt32 l) 0 c.myRam inp with
        | .outOfBounds => .error .outOfBounds
        | .fault ram inp => .ok (false, { c with myCurrentBank := toUInt16 b, myRam := ram }, inp)
        | .done ram inp =>
          (bank { c with myCurrentBank := toUInt16 b, myRam := ram } (toUInt16 b)).map
            (fun c' => (true, c', inp)) := by
  simp only [load, Serializer.getString, Serializer.getInt, ne_eq, not_true_eq_false, if_false]

/-- `bank` applied to a valid selector selects that selector again. -/
theorem bank_valid_selector {c : Cartridge3E} {N : Nat} (hS : c.mySize = 2048 * N)
    (hv : validBank N c.myCurrentBank) :
    ∃ c', c.bank c.myCurrentBank = .ok c' ∧ c'.myCurrentBank = c.myCurrentBank
      ∧ c'.myRam = c.myRam ∧ c'.mySize = c.mySize := by
  cases hl : c.myBankLocked with
  | true => exact ⟨c, bank_locked hl _, rfl, rfl, rfl⟩
  | false =>
    rcases hv with ⟨h256, hN⟩ | ⟨h256, h288⟩
    · refine ⟨_, bank_rom hS (by omega) hl h256, ?_, rfl, rfl⟩
      exact Nat.mod_eq_of_lt hN
    · refine ⟨_, bank_ram hl h256, ?_, rfl, rfl⟩
      show (c.myCurrentBank - 256) % 32 + 256 = c.myCurrentBank
      omega

/-- C5: save/load round trip. For a cartridge `c` with a valid bank selector
(and bytes in its RAM cells) and any target `t` of the same type (`cart`) and
image size (`2048 * N` bytes) - in particular a freshly reset one - `save`
succeeds and `load` of the stream it wrote returns true and leaves `t` with
the 32768 RAM bytes of `c` and with the selector of `c`. -/
theorem save_load_round_trip (cart : String) (c t : Cartridge3E) (N : Nat) (rest : Serializer)
    (ht : t.mySize = 2048 * N) (hvalid : validBank N c.myCurrentBank)
    (hbytes : ∀ i < ramSize, c.myRam i < 256) :
    (c.save cart []).1 = true
      ∧ ∃ t', t.load cart ((c.save cart []).2 ++ rest) = .ok (true, t', rest)
          ∧ (∀ i < ramSize, t'.myRam i = c.myRam i) ∧ t'.myCurrentBank = c.myCurrentBank := by
  rw [save_eq]
  refine ⟨rfl, ?_⟩
  obtain ⟨ram', hload, hin, -⟩ :=
    loadRam_ramBytes c.myRam hbytes ramSize 0 t.myRam rest (Nat.le_of_eq (Nat.zero_add _))
  have h16 : toUInt16 (c.myCurrentBank : Int) = c.myCurrentBank := by
    have : c.myCurrentBank < 288 := by rcases hvalid with ⟨h, -⟩ | ⟨-, h⟩ <;> omega
    unfold toUInt16
    omega
  have h32 : toUInt32 (32768 : Int) = ramSize := by decide
  obtain ⟨t', hbank, hcb, hram, -⟩ :=
    bank_valid_selector (c := { t with myCurrentBank := c.myCurrentBank, myRam := ram' })
      (N := N) ht hvalid
  refine ⟨t', ?_, ?_, ?_⟩
  · show t.load cart (.string cart :: .int c.myCurrentBank :: .int 32768
        :: (ramBytes c.myRam ramSize 0 ++ rest)) = _
    rw [load_tagged, h32, hload, h16]
    show Except.map _ (bank _ _) = _
    rw [hbank]
    rfl
  · intro i hi
    rw [hram]
    exact hin i (Nat.zero_le i) (by omega)
  · rw [hcb]

/-- C6: when the stream starts with a tag other than the cartridge's type
name, `load` returns false and the cartridge is exactly as before. -/
theorem load_tag_mismatch (cart : String) (c : Cartridge3E) (tag : String) (rest : Serializer)
    (htag : tag ≠ cart) :
    c.load cart (.string tag :: rest) = .ok (false, c, rest) := by
  simp only [load, Serializer.getString, ne_eq, htag, not_false_eq_true, if_true]

theorem save_load_round_trip_witness :
    ((sampleCart 4 (256 + 3) true).save "Cartridge3E" []).1 = true
      ∧ ∃ t', freshCart.load "Cartridge3E" (((sampleCart 4 (256 + 3) true).save "Cartridge3E" []).2 ++ [])
                = .ok (true, t', [])
          ∧ (∀ i < ramSize, t'.myRam i = (sampleCart 4 (256 + 3) true).myRam i)
          ∧ t'.myCurrentBank = (sampleCart 4 (256 + 3) true).myCurrentBank :=
  save_load_round_trip "Cartridge3E" (sampleCart 4 (256 + 3) true) freshCart 4 [] rfl (by decide)
    (fun i _ => lt_trans (Nat.mod_lt i (by decide)) (by decide))

theorem load_tag_mismatch_witness :
    (sampleCart 4 0 false).load "Cartridge3E" (.string "CartridgeF8" :: [.int 1, .int 0])
      = .ok (false, sampleCart 4 0 false, [.int 1, .int 0]) :=
  load_tag_mismatch "Cartridge3E" (sampleCart 4 0 false) "CartridgeF8" [.int 1, .int 0] (by decide)

/-! ## Validity of the bank selector -/

theorem bank_valid {c : Cartridge3E} {N : Nat} (hS : c.mySize = 2048 * N) (hN : 0 < N)
    (hv : c.myBankLocked = false ∨ validBank N c.myCurrentBank) (n : Nat) :
    ∃ c', c.bank n = .ok c' ∧ validBank N c'.myCurrentBank ∧ c'.mySize = c.mySize := by
  cases hl : c.myBankLocked with
  | true =>
    have hv' : validBank N c.myCurrentBank := by
      rcases hv with h | h
      · rw [hl] at h; exact absurd h (by simp)
      · exact h
    exact ⟨c, bank_locked hl n, hv', rfl⟩
  | false =>
    by_cases hn : n < 256
    · refine ⟨_, bank_rom hS hN hl hn, Or.inl ⟨?_, ?_⟩, rfl⟩
      · exact lt_of_le_of_lt (Nat.mod_le n N) hn
      · exact Nat.mod_lt n hN
    · refine ⟨_, bank_ram hl (by omega), Or.inr ⟨?_, ?_⟩, rfl⟩
      · exact Nat.le_add_left 256 _
      · show (n - 256) % 32 + 256 < 288
        omega

theorem peek_valid {c : Cartridge3E} {N : Nat} (hS : c.mySize = 2048 * N) (hN : 0 < N)
    (hv : validBank N c.myCurrentBank) (a : Nat) :
    ∃ b c', c.peek a = .ok (b, c') ∧ c'.myCurrentBank = c.myCurrentBank
      ∧ c'.mySize = c.mySize := by
  unfold validBank at hv
  unfold peek readImage readRam writeRam bankLocked triggerReadFromWritePort ramSize
  simp only [and_0FFF, and_07FF, and_03FF, shl_11, shl_10]
  split_ifs <;> first
    | exact ⟨_, _, rfl, rfl, rfl⟩
    | (exfalso; omega)

theorem patch_valid {c : Cartridge3E} {N : Nat} (hS : c.mySize = 2048 * N) (hN : 0 < N)
    (hv : validBank N c.myCurrentBank) (a v : Nat) :
    ∃ c', c.patch a v = .ok (true, c') ∧ c'.myCurrentBank = c.myCurrentBank
      ∧ c'.mySize = c.mySize := by
  unfold validBank at hv
  unfold patch writeImage writeRam ramSize
  simp only [and_0FFF, and_07FF, and_03FF, shl_11, shl_10]
  split_ifs <;> first
    | exact ⟨_, rfl, rfl, rfl⟩
    | (exfalso; omega)

theorem poke_valid {c : Cartridge3E} {N : Nat} (hS : c.mySize = 2048 * N) (hN : 0 < N)
    (hv : validBank N c.myCurrentBank) (a v : Nat) :
    ∃ c', c.poke a v = .ok (false, c') ∧ validBank N c'.myCurrentBank
      ∧ c'.mySize = c.mySize := by
  unfold poke
  simp only []
  split_ifs with h1 h2
  · obtain ⟨c', hb, hv', hs⟩ := bank_valid hS hN (Or.inr hv) v
    rw [hb]
    exact ⟨_, rfl, hv', hs⟩
  · obtain ⟨c', hb, hv', hs⟩ := bank_valid hS hN (Or.inr hv) ((v + 256) % 65536)
    rw [hb]
    exact ⟨_, rfl, hv', hs⟩
  · exact ⟨_, rfl, hv, rfl⟩

theorem bank_map_valid {c c' : Cartridge3E} {N n : Nat} {inp rest : Serializer}
    (h : (c.bank n).map (fun c' => (true, c', inp)) = .ok (true, c', rest))
    (hS : c.mySize = 2048 * N) (hN : 0 < N) (hu : c.myBankLocked = false) :
    validBank N c'.myCurrentBank ∧ c'.mySize = c.mySize := by
  obtain ⟨c2, hb, hv, hs⟩ := bank_valid hS hN (Or.inl hu) n
  rw [hb] at h
  simp only [Except.map, Except.ok.injEq, Prod.mk.injEq, true_and] at h
  rw [← h.1]
  exact ⟨hv, hs⟩

theorem load_valid {c : Cartridge3E} {N : Nat} (hS : c.mySize = 2048 * N) (hN : 0 < N)
    (hu : c.myBankLocked = false) (cart : String) (inp rest : Serializer) (c' : Cartridge3E)
    (hload : c.load cart inp = .ok (true, c', rest)) :
    validBank N c'.myCurrentBank ∧ c'.mySize = c.mySize := by
  unfold load at hload
  split at hload
  · simp at hload
  · split_ifs at hload with htag
    · simp at hload
    · split at hload
      · simp at hload
      · split at hload
        · simp at hload
        · simp only [] at hload
          split at hload
          · simp at hload
          · simp at hload
          · have hfinal := bank_map_valid hload hS hN hu
            exact hfinal

/-- C4 fails for `load`: the bank field of the stream is stored unchecked.
A locked cartridge with the valid selector 0 that loads a well-formed stream
carrying the selector 300 returns true and keeps 300, which designates neither
a ROM bank nor one of the 32 RAM banks; an unlocked cartridge that loads a
stream ending after the selector returns false and keeps 300 as well. In both
states the next `peek(0x1000)` reads `myRam[(300 - 256) << 10]`, outside the
32768-byte RAM. -/
theorem load_breaks_valid_bank :
    validBank 4 (sampleCart 4 0 true).myCurrentBank
      ∧ ((sampleCart 4 0 true).load "Cartridge3E"
            [.string "Cartridge3E", .int 300, .int 0]).map (fun r => (r.1, r.2.1.myCurrentBank))
          = .ok (true, 300)
      ∧ ((sampleCart 4 0 false).load "Cartridge3E"
            [.string "Cartridge3E", .int 300]).map (fun r => (r.1, r.2.1.myCurrentBank))
          = .ok (false, 300)
      ∧ ¬ validBank 4 300
      ∧ ((sampleCart 4 0 true).load "Cartridge3E"
            [.string "Cartridge3E", .int 300, .int 0]).bind (fun r => r.2.1.peek 0x1000)
          = .error .outOfBounds
      ∧ ((sampleCart 4 0 false).load "Cartridge3E"
            [.string "Cartridge3E", .int 300]).bind (fun r => r.2.1.peek 0x1000)
          = .error .outOfBounds :=
  ⟨by decide, rfl, rfl, by decide, rfl, rfl⟩

theorem getString_some {inp rest : Serializer} {s : String}
    (h : inp.getString = some (s, rest)) : inp = .string s :: rest := by
  cases inp with
  | nil => simp [Serializer.getString] at h
  | cons item tail =>
    cases item <;> simp [Serializer.getString] at h
    rw [h.1, h.2]

theorem getInt_some {inp rest : Serializer} {n : Int}
    (h : inp.getInt = some (n, rest)) : inp = .int n :: rest := by
  cases inp with
  | nil => simp [Serializer.getInt] at h
  | cons item tail =>
    cases item <;> simp [Serializer.getInt] at h
    rw [h.1, h.2]

/-- `load` keeps a valid selector valid - locked or not, whether it returns
true or false - whenever the bank field of the stream, if there is one after
the tag, is itself a valid selector. -/
theorem load_valid_field {c : Cartridge3E} {N : Nat} (hS : c.mySize = 2048 * N) (hN : 0 < N)
    (hv : validBank N c.myCurrentBank) (cart : String) (inp : Serializer)
    (hfield : ∀ s b rest, inp = .string s :: .int b :: rest → validBank N (toUInt16 b))
    (r : Bool × Cartridge3E × Serializer) (hload : c.load cart inp = .ok r) :
    validBank N r.2.1.myCurrentBank := by
  unfold load at hload
  split at hload
  · cases hload; exact hv
  · rename_i s inp1 hs
    split_ifs at hload with htag
    · cases hload; exact hv
    · split at hload
      · cases hload; exact hv
      · rename_i b inp2 hb
        have hinp : inp = .string s :: .int b :: inp2 := by
          rw [getString_some hs, getInt_some hb]
        have hvb : validBank N (toUInt16 b) := hfield s b inp2 hinp
        split at hload
        · cases hload; exact hvb
        · simp only [] at hload
          split at hload
          · cases hload
          · cases hload; exact hvb
          · rename_i ram inp4 _
            obtain ⟨c2, hbank, hv2, -⟩ :=
              bank_valid
                (c := { c with
                        myCurrentBank := toUInt16 b, myRam := ram })
                (N := N) hS hN (Or.inr hvb) (toUInt16 b)
            rw [hbank] at hload
            cases hload
            exact hv2

/-- Where the selector invariant does hold: for an image of `2048 * N` bytes
(`N ≥ 1`), the selector is valid after `install` on an unlocked cartridge, and
validity is preserved - locked or not - by `reset`, `bank(n)` for every `n`,
`poke`, `peek` and `patch` (none of which faults), and by every `load` that
returns true on an unlocked cartridge. Each operation also keeps the image
size. -/
theorem valid_bank_invariant (c : Cartridge3E) (N : Nat) (hS : c.mySize = 2048 * N)
    (hN : 0 < N) :
    (∀ system, c.myBankLocked = false → 0x1800 &&& system.pageMask = 0 →
        ∃ c', c.install system = .ok c' ∧ validBank N c'.myCurrentBank ∧ c'.mySize = c.mySize)
    ∧ (validBank N c.myCurrentBank →
        (∃ c', c.reset = .ok c' ∧ validBank N c'.myCurrentBank ∧ c'.mySize = c.mySize)
        ∧ (∀ n, ∃ c', c.bank n = .ok c' ∧ validBank N c'.myCurrentBank ∧ c'.mySize = c.mySize)
        ∧ (∀ a v, ∃ c', c.poke a v = .ok (false, c') ∧ validBank N c'.myCurrentBank
              ∧ c'.mySize = c.mySize)
        ∧ (∀ a, ∃ b c', c.peek a = .ok (b, c') ∧ validBank N c'.myCurrentBank
              ∧ c'.mySize = c.mySize)
        ∧ (∀ a v, ∃ c', c.patch a v = .ok (true, c') ∧ validBank N c'.myCurrentBank
              ∧ c'.mySize = c.mySize)
        ∧ (∀ cart inp c' rest, c.myBankLocked = false →
              c.load cart inp = .ok (true, c', rest) →
              validBank N c'.myCurrentBank ∧ c'.mySize = c.mySize)) := by
  refine ⟨?_, fun hv => ⟨?_, ?_, ?_, ?_, ?_, ?_⟩⟩
  · intro system hu hmask
    unfold install
    simp only [ne_eq, hmask, not_true_eq_false, if_false]
    apply bank_valid (N := N)
    · exact hS
    · exact hN
    · exact Or.inl hu
  · unfold reset
    simp only []
    apply bank_valid (N := N)
    · exact hS
    · exact hN
    · exact Or.inr hv
  · exact bank_valid hS hN (Or.inr hv)
  · exact poke_valid hS hN hv
  · intro a
    obtain ⟨b, c', hp, hcb, hs⟩ := peek_valid hS hN hv a
    exact ⟨b, c', hp, hcb ▸ hv, hs⟩
  · intro a v
    obtain ⟨c', hp, hcb, hs⟩ := patch_valid hS hN hv a v
    exact ⟨c', hp, hcb ▸ hv, hs⟩
  · intro cart inp c' rest hu hload
    exact load_valid hS hN hu cart inp rest c' hload

/-- The selector invariant on the sample cartridges. -/
theorem valid_bank_invariant_sample :
    (∃ c', (sampleCart 4 7 false).install sampleSystem = .ok c' ∧ validBank 4 c'.myCurrentBank
        ∧ c'.mySize = (sampleCart 4 7 false).mySize)
    ∧ (∃ c', (sampleCart 4 3 true).bank 300 = .ok c' ∧ validBank 4 c'.myCurrentBank
        ∧ c'.mySize = (sampleCart 4 3 true).mySize)
    ∧ (∃ c', (sampleCart 4 3 false).poke 0x003E 0x29 = .ok (false, c')
        ∧ validBank 4 c'.myCurrentBank ∧ c'.mySize = (sampleCart 4 3 false).mySize)
    ∧ (validBank 4 (mapRamPagesCart 12).myCurrentBank ∧ (mapRamPagesCart 12).mySize
        = (sampleCart 4 3 false).mySize) :=
  ⟨(valid_bank_invariant (sampleCart 4 7 false) 4 rfl (by decide)).1 sampleSystem rfl (by decide),
   ((valid_bank_invariant (sampleCart 4 3 true) 4 rfl (by decide)).2 (by decide)).2.1 300,
   ((valid_bank_invariant (sampleCart 4 3 false) 4 rfl (by decide)).2 (by decide)).2.2.1 0x003E 0x29,
   ((valid_bank_invariant (sampleCart 4 3 false) 4 rfl (by decide)).2 (by decide)).2.2.2.2.2
      "Cartridge3E" [.string "Cartridge3E", .int 300, .int 0] (mapRamPagesCart 12) [] rfl rfl⟩

/-! ## Bank boundaries, the lock and the hot spots -/

/-- C8 as stated fails from 256 banks on: with a 512 KiB image (`N = 256`)
`bank(N)` selects RAM bank 0 (selector 256) and the lower window then reads RAM,
not `image[o]`; with `N = 257`, `bank(N - 1)` selects RAM bank 0 as well. -/
theorem bank_count_256_selects_ram :
    ((sampleCart 256 5 false).bank 256).map (fun c => c.myCurrentBank) = .ok 256
      ∧ (((sampleCart 256 5 false).bank 256).bind (fun c => c.peek 0x1009)).map (fun r => r.1)
          = .ok ((sampleCart 256 5 false).myRam 9)
      ∧ (sampleCart 256 5 false).myRam 9 ≠ (sampleCart 256 5 false).myImage 9
      ∧ ((sampleCart 257 5 false).bank (257 - 1)).map (fun c => c.myCurrentBank) = .ok 256 :=
  ⟨rfl, rfl, by decide, rfl⟩

/-- C8, amended: on an unlocked cartridge with an image of `2048 * N` bytes,
if `1 ≤ N ≤ 255` then `bank(N)` leaves ROM bank 0 selected (selector 0, lower
window reads `image[o]`), and if `1 ≤ N ≤ 256` then `bank(N - 1)` leaves the
last slice selected (selector `N - 1`, lower window reads
`image[(N - 1) * 2048 + o]`). -/
theorem bank_boundary (c : Cartridge3E) (N o a : Nat)
    (hS : c.mySize = 2048 * N) (hN : 0 < N) (hu : c.myBankLocked = false)
    (ho : o < 2048) (ha : a &&& 0x0FFF = o) :
    (N ≤ 255 → ∃ c', c.bank N = .ok c' ∧ c'.myCurrentBank = 0
        ∧ c'.peek a = .ok (c.myImage o, c'))
    ∧ (N ≤ 256 → ∃ c', c.bank (N - 1) = .ok c' ∧ c'.myCurrentBank = N - 1
        ∧ c'.peek a = .ok (c.myImage ((N - 1) * 2048 + o), c')) := by
  constructor
  · intro h255
    obtain ⟨c', hbank, hcb, hpeek⟩ := bank_rom_peek (b := N) hS hN hu (by omega) ho ha
    rw [Nat.mod_self] at hcb hpeek
    rw [Nat.zero_mul, Nat.zero_add] at hpeek
    exact ⟨c', hbank, hcb, hpeek⟩
  · intro h256
    obtain ⟨c', hbank, hcb, hpeek⟩ := bank_rom_peek (b := N - 1) hS hN hu (by omega) ho ha
    have hmod : (N - 1) % N = N - 1 := Nat.mod_eq_of_lt (by omega)
    rw [hmod] at hcb hpeek
    exact ⟨c', hbank, hcb, hpeek⟩

theorem bank_boundary_witness :
    (∃ c', (sampleCart 4 2 false).bank 4 = .ok c' ∧ c'.myCurrentBank = 0
        ∧ c'.peek 0x1705 = .ok ((sampleCart 4 2 false).myImage 0x705, c'))
    ∧ (∃ c', (sampleCart 4 2 false).bank (4 - 1) = .ok c' ∧ c'.myCurrentBank = 4 - 1
        ∧ c'.peek 0x1705 = .ok ((sampleCart 4 2 false).myImage ((4 - 1) * 2048 + 0x705), c')) :=
  ⟨(bank_boundary (sampleCart 4 2 false) 4 0x705 0x1705 rfl (by decide) rfl (by decide)
      (by decide)).1 (by decide),
   (bank_boundary (sampleCart 4 2 false) 4 0x705 0x1705 rfl (by decide) rfl (by decide)
      (by decide)).2 (by decide)⟩

/-- C9: on a locked cartridge `bank(n)` returns the cartridge as it was, for
every `n`; and `poke` - at the hot spots 0x003F and 0x003E as at any other
address, with any value - changes nothing but the log of writes forwarded to
the TIA: selector, page mapping, RAM, image and changed flag are as before. -/
theorem locked_ignores_bank_switch (c : Cartridge3E) (hl : c.myBankLocked = true)
    (n a v : Nat) :
    c.bank n = .ok c
      ∧ ∃ c', c.poke a v = .ok (false, c')
          ∧ c' = { c with mySystem := c.mySystem.tiaPoke (a &&& 0x0FFF) v }
          ∧ c'.myCurrentBank = c.myCurrentBank
          ∧ c'.mySystem.pageAccessTable = c.mySystem.pageAccessTable
          ∧ c'.myRam = c.myRam ∧ c'.myImage = c.myImage
          ∧ c'.myBankChanged = c.myBankChanged := by
  refine ⟨bank_locked hl n, _, ?_, rfl, rfl, rfl, rfl, rfl, rfl⟩
  unfold poke
  simp only [bank_locked hl, ite_self]
  rfl

theorem locked_ignores_bank_switch_witness :
    (sampleCart 4 2 true).bank 3 = .ok (sampleCart 4 2 true)
      ∧ ∃ c', (sampleCart 4 2 true).poke 0x003F 3 = .ok (false, c')
          ∧ c' = { sampleCart 4 2 true with
                   mySystem := (sampleCart 4 2 true).mySystem.tiaPoke (0x003F &&& 0x0FFF) 3 }
          ∧ c'.myCurrentBank = (sampleCart 4 2 true).myCurrentBank
          ∧ c'.mySystem.pageAccessTable = (sampleCart 4 2 true).mySystem.pageAccessTable
          ∧ c'.myRam = (sampleCart 4 2 true).myRam ∧ c'.myImage = (sampleCart 4 2 true).myImage
          ∧ c'.myBankChanged = (sampleCart 4 2 true).myBankChanged :=
  locked_ignores_bank_switch (sampleCart 4 2 true) rfl 3 0x003F 3

end Cartridge3E

theorem pageLoop_tiaPokes (shift limit : Nat) (access : Nat → PageAccess)
    (fuel address : Nat) (sys : System) :
    (pageLoop shift limit access fuel address sys).tiaPokes = sys.tiaPokes := by
  induction fuel generalizing address sys with
  | zero => rfl
  | succ fuel ih =>
    unfold pageLoop
    split_ifs
    · rw [ih]; rfl
    · rfl

namespace Cartridge3E

theorem mapRomPages_tiaPokes (sys : System) (offset : Nat) :
    (mapRomPages sys offset).tiaPokes = sys.tiaPokes :=
  pageLoop_tiaPokes _ _ _ _ _ _

theorem mapRamPages_tiaPokes (sys : System) (offset : Nat) :
    (mapRamPages sys offset).tiaPokes = sys.tiaPokes := by
  unfold mapRamPages
  simp only [pageLoop_tiaPokes]

/-- C10: on an unlocked cartridge with an image of `2048 * N` bytes (`N ≥ 1`),
for every byte `v`: `poke` at hot spot 0x003F leaves the selector `v mod N`,
`poke` at hot spot 0x003E leaves the selector `256 + (v mod 32)`, and `poke` at
any other address leaves the cartridge as it was; in all three cases `poke`
returns false and appends exactly the one write `(address & 0x0FFF, v)` to the
writes forwarded to the TIA. -/
theorem poke_hot_spots (c : Cartridge3E) (N v a : Nat)
    (hS : c.mySize = 2048 * N) (hN : 0 < N) (hu : c.myBankLocked = false) (hv : v < 256) :
    ∃ c', c.poke a v = .ok (false, c')
      ∧ c'.mySystem.tiaPokes = c.mySystem.tiaPokes ++ [(a &&& 0x0FFF, v)]
      ∧ (a &&& 0x0FFF = 0x003F → c'.myCurrentBank = v % N)
      ∧ (a &&& 0x0FFF = 0x003E → c'.myCurrentBank = 256 + v % 32)
      ∧ (a &&& 0x0FFF ≠ 0x003F → a &&& 0x0FFF ≠ 0x003E →
          c' = { c with mySystem := c.mySystem.tiaPoke (a &&& 0x0FFF) v }) := by
  unfold poke
  simp only []
  by_cases h1 : a &&& 0x0FFF = 0x003F
  · rw [if_pos h1, bank_rom hS hN hu hv]
    refine ⟨_, rfl, ?_, fun _ => rfl, fun h => ?_, fun h => absurd h1 h⟩
    · show (mapRomPages c.mySystem _).tiaPokes ++ _ = _
      rw [mapRomPages_tiaPokes]
    · rw [h1] at h; exact absurd h (by decide)
  · by_cases h2 : a &&& 0x0FFF = 0x003E
    · have hmod : (v + 256) % 65536 = v + 256 := Nat.mod_eq_of_lt (by omega)
      rw [if_neg h1, if_pos h2, hmod, bank_ram hu (Nat.le_add_left 256 v)]
      refine ⟨_, rfl, ?_, fun h => absurd h h1, fun _ => ?_, fun _ h => absurd h2 h⟩
      · show (mapRamPages c.mySystem _).tiaPokes ++ _ = _
        rw [mapRamPages_tiaPokes]
      · show (v + 256 - 256) % 32 + 256 = 256 + v % 32
        rw [Nat.add_sub_cancel, Nat.add_comm]
    · rw [if_neg h1, if_neg h2]
      exact ⟨_, rfl, rfl, fun h => absurd h h1, fun h => absurd h h2, fun _ _ => rfl⟩

theorem poke_hot_spots_witness :
    ∃ c', (sampleCart 4 0 false).poke 0x003F 0x0E = .ok (false, c')
      ∧ c'.mySystem.tiaPokes = (sampleCart 4 0 false).mySystem.tiaPokes ++ [(0x003F &&& 0x0FFF, 0x0E)]
      ∧ (0x003F &&& 0x0FFF = 0x003F → c'.myCurrentBank = 0x0E % 4)
      ∧ (0x003F &&& 0x0FFF = 0x003E → c'.myCurrentBank = 256 + 0x0E % 32)
      ∧ (0x003F &&& 0x0FFF ≠ 0x003F → 0x003F &&& 0x0FFF ≠ 0x003E →
          c' = { sampleCart 4 0 false with
                 mySystem := (sampleCart 4 0 false).mySystem.tiaPoke (0x003F &&& 0x0FFF) 0x0E }) :=
  poke_hot_spots (sampleCart 4 0 false) 4 0x0E 0x003F rfl (by decide) rfl (by decide)

end Cartridge3E

/-! ## DelayQueue.execute -/

namespace DelayQueue

/-- The entry loop of `execute` on a bucket whose addresses are subscripts of
`myIndices`: the executor is run over the bucket from first to last entry, the
index of every address of the bucket becomes 0xFF, no other index changes. -/
theorem executeEntries_in_range {σ : Type} (executor : Nat → Nat → σ → σ)
    (bucket : List Entry) (indices : Nat → Nat) (s : σ)
    (haddr : ∀ e ∈ bucket, e.address < indicesSize) :
    ∃ indices', executeEntries executor bucket indices s
        = .ok (indices', bucket.foldl (fun s e => executor e.address e.value s) s)
      ∧ (∀ e ∈ bucket, indices' e.address = 0xFF)
      ∧ (∀ a, (∀ e ∈ bucket, e.address ≠ a) → indices' a = indices a) := by
  induction bucket generalizing indices s with
  | nil => exact ⟨indices, rfl, fun e he => absurd he (List.not_mem_nil e), fun _ _ => rfl⟩
  | cons entry rest ih =>
    have hentry : entry.address < indicesSize := haddr entry (List.mem_cons_self entry rest)
    obtain ⟨indices', hrun, hset, hkeep⟩ :=
      ih (Function.update indices entry.address 0xFF) (executor entry.address entry.value s)
        (fun e he => haddr e (List.mem_cons_of_mem entry he))
    refine ⟨indices', ?_, ?_, ?_⟩
    · simp only [executeEntries, hentry, if_true, List.foldl_cons]
      exact hrun
    · intro e he
      by_cases hin : ∃ e' ∈ rest, e'.address = e.address
      · obtain ⟨e', he', heq⟩ := hin
        rw [← heq]
        exact hset e' he'
      · have hnot : ∀ e' ∈ rest, e'.address ≠ e.address := fun e' he' h => hin ⟨e', he', h⟩
        rw [hkeep e.address hnot]
        rcases List.mem_cons.mp he with h | h
        · rw [h, Function.update_same]
        · exact absurd rfl (hnot e h)
    · intro a ha
      rw [hkeep a (fun e he => ha e (List.mem_cons_of_mem entry he))]
      exact Function.update_noteq (Ne.symm (ha entry (List.mem_cons_self entry rest))) _ _

/-- `execute` on a queue of at most 256 buckets whose bucket at the cursor
holds only addresses below 0xFF: the executor is run once per entry of that
bucket, in insertion order; afterwards the bucket is empty, the other buckets
are unchanged, the indices of the delivered addresses are 0xFF, the other
indices are unchanged and the cursor is `(cursor + 1) mod N`. -/
theorem execute_in_range {σ : Type} (q : DelayQueue) (executor : Nat → Nat → σ → σ) (s : σ)
    (bucket : List Entry) (hlen : q.myMembers.length ≤ 256)
    (hbucket : q.myMembers[q.myIndex]? = some bucket)
    (haddr : ∀ e ∈ bucket, e.address < indicesSize) :
    ∃ q', q.execute executor s
        = .ok (q', bucket.foldl (fun s e => executor e.address e.value s) s)
      ∧ q'.myMembers = q.myMembers.set q.myIndex []
      ∧ q'.myIndex = (q.myIndex + 1) % q.myMembers.length
      ∧ (∀ e ∈ bucket, q'.myIndices e.address = 0xFF)
      ∧ (∀ a, (∀ e ∈ bucket, e.address ≠ a) → q'.myIndices a = q.myIndices a) := by
  obtain ⟨indices', hrun, hset, hkeep⟩ :=
    executeEntries_in_range executor bucket q.myIndices s haddr
  have hpos : 0 < q.myMembers.length := by
    rcases List.getElem?_eq_some.mp hbucket with ⟨h, -⟩
    omega
  have hcur : (q.myIndex + 1) % q.myMembers.length % 256 = (q.myIndex + 1) % q.myMembers.length :=
    Nat.mod_eq_of_lt (lt_of_lt_of_le (Nat.mod_lt _ hpos) hlen)
  refine ⟨{ myMembers := q.myMembers.set q.myIndex [],
             myIndex := (q.myIndex + 1) % q.myMembers.length % 256,
             myIndices := indices' }, ?_, rfl, hcur, hset, hkeep⟩
  unfold execute
  rw [hbucket]
  simp only [hrun]

/-- The calls a recording executor sees are the entries of the bucket, in
order. -/
theorem foldl_recordCall (bucket : List Entry) (calls : List (Nat × Nat)) :
    bucket.foldl (fun s e => recordCall e.address e.value s) calls
      = calls ++ bucket.map (fun e => (e.address, e.value)) := by
  induction bucket generalizing calls with
  | nil => simp
  | cons entry rest ih =>
    rw [List.foldl_cons, ih, List.map_cons, recordCall, List.append_assoc]
    rfl

/-- On `smallQueue` the two entries of the third bucket are delivered in
order, the bucket is emptied and the cursor wraps to 0. -/
theorem execute_smallQueue :
    (smallQueue.execute recordCall []).map (fun r => (r.1.myMembers, r.1.myIndex, r.2))
      = .ok ([[⟨0x2C, 7⟩], [], []], 0, [(0x10, 1), (0x11, 2)]) := rfl

/-- C7 fails where the bucket at the cursor holds an entry with address 0xFF:
`sampleQueue` has `N = 3` buckets and cursor `1 < 3`, and `execute` stores
`myIndices[0xFF]`, one element past the end of `uInt8 myIndices[0xFF]`. -/
theorem execute_address_0xFF_out_of_bounds :
    1 ≤ sampleQueue.myMembers.length ∧ sampleQueue.myIndex < sampleQueue.myMembers.length
      ∧ sampleQueue.myMembers[sampleQueue.myIndex]? = some [⟨0x2C, 7⟩, ⟨0xFF, 9⟩]
      ∧ ¬ (0xFF < indicesSize)
      ∧ sampleQueue.execute recordCall [] = .error .outOfBounds :=
  ⟨by decide, by decide, rfl, by decide, rfl⟩

end DelayQueue

/-! ## Hot-spot mirrors, the fixed top slice and patch -/

namespace Cartridge3E

/-- `poke` at an address whose low twelve bits are neither 0x003F nor 0x003E
only forwards the write to the TIA. -/
theorem poke_other_address (c : Cartridge3E) (a v : Nat)
    (h1 : a &&& 0x0FFF ≠ 0x003F) (h2 : a &&& 0x0FFF ≠ 0x003E) :
    c.poke a v = .ok (false, { c with mySystem := c.mySystem.tiaPoke (a &&& 0x0FFF) v }) := by
  unfold poke
  simp only []
  rw [if_neg h1, if_neg h2]
  rfl

/-- C11 fails at 0x103F, a 16-bit address other than 0x003E and 0x003F: `poke`
masks the address with 0x0FFF before comparing, so on the unlocked sample
cartridge `poke(0x103F, 2)` moves the selector from 0 to 2, sets the changed
flag and remaps page 64 (addresses 0x1000-0x103F) to `image[4096]`. -/
theorem poke_0x103F_switches_bank :
    0x103F ≠ 0x003E ∧ 0x103F ≠ 0x003F ∧ 0x103F < 65536
      ∧ (sampleCart 4 0 false).myCurrentBank = 0
      ∧ (sampleCart 4 0 false).myBankChanged = false
      ∧ ((sampleCart 4 0 false).mySystem.pageAccessTable 64).directPeekBase = none
      ∧ ((sampleCart 4 0 false).poke 0x103F 2).map
          (fun r => (r.2.myCurrentBank, r.2.myBankChanged,
                     (r.2.mySystem.pageAccessTable 64).directPeekBase))
          = .ok (2, true, some (.image 4096)) :=
  ⟨by decide, by decide, by decide, rfl, rfl, rfl, rfl⟩

/-- The subscript of the fixed top slice, as `peek` and `patch` compute it in
`uInt32`, for an image of a positive multiple of 2048 bytes. -/
theorem top_slice_index {S N x : Nat} (hS : S = 2048 * N) (hN : 0 < N) (h32 : S < 4294967296)
    (hx : x < 2048) :
    (x + S + (4294967296 - 2048)) % 4294967296 = S - 2048 + x ∧ S - 2048 + x < S := by
  omega

theorem and_0FFF_and_07FF (a : Nat) : (a &&& 0x0FFF) &&& 0x07FF = a &&& 0x07FF := by
  rw [and_07FF, and_07FF, and_0FFF]
  exact Nat.mod_mod_of_dvd a (by norm_num)

theorem and_0FFF_and_03FF (a : Nat) : (a &&& 0x0FFF) &&& 0x03FF = a &&& 0x03FF := by
  rw [and_03FF, and_03FF, and_0FFF]
  exact Nat.mod_mod_of_dvd a (by norm_num)

theorem and_07FF_lt (a : Nat) : a &&& 0x07FF < 2048 := by
  rw [and_07FF]; exact Nat.mod_lt a (by norm_num)

/-- `peek` in the upper half of the window. -/
theorem peek_upper {c : Cartridge3E} {N a : Nat} (hS : c.mySize = 2048 * N) (hN : 0 < N)
    (h32 : c.mySize < 4294967296) (ha : 0x0800 ≤ a &&& 0x0FFF) :
    c.peek a = .ok (c.myImage (c.mySize - 2048 + (a &&& 0x07FF)), c) := by
  obtain ⟨hidx, hlt⟩ := top_slice_index hS hN h32 (and_07FF_lt a)
  have hhi : ¬ a &&& 0x0FFF < 0x0800 := by omega
  unfold peek
  simp only []
  rw [if_neg hhi, and_0FFF_and_07FF, hidx]
  unfold readImage
  rw [if_pos hlt]
  rfl

/-- C12: in every cartridge state whose image has `2048 * N` bytes (`N ≥ 1`,
the size a `uInt32`) - any selector, locked or not - `patch` of an address in
the upper half of the window (`(a & 0x0FFF) ≥ 0x0800`) returns true, stores `v`
in `image[S - 2048 + (a & 0x07FF)]`, leaves every other image byte and the whole
RAM as they were, and sets the changed flag. -/
theorem patch_top_slice (c : Cartridge3E) (N a v : Nat) (hS : c.mySize = 2048 * N)
    (hN : 0 < N) (h32 : c.mySize < 4294967296) (ha : 0x0800 ≤ a &&& 0x0FFF) :
    ∃ c', c.patch a v = .ok (true, c')
      ∧ c'.myImage (c.mySize - 2048 + (a &&& 0x07FF)) = v
      ∧ (∀ i, i ≠ c.mySize - 2048 + (a &&& 0x07FF) → c'.myImage i = c.myImage i)
      ∧ c'.myRam = c.myRam ∧ c'.myBankChanged = true := by
  obtain ⟨hidx, hlt⟩ := top_slice_index hS hN h32 (and_07FF_lt a)
  have hhi : ¬ a &&& 0x0FFF < 0x0800 := by omega
  refine ⟨{ c with myImage := Function.update c.myImage (c.mySize - 2048 + (a &&& 0x07FF)) v,
                   myBankChanged := true }, ?_, ?_, ?_, rfl, rfl⟩
  · unfold patch
    simp only []
    rw [if_neg hhi, and_0FFF_and_07FF, hidx]
    unfold writeImage
    rw [if_pos hlt]
    rfl
  · exact Function.update_same _ _ _
  · intro i hi
    exact Function.update_noteq hi _ _

theorem patch_top_slice_witness :
    ∃ c', (sampleCart 4 (256 + 3) true).patch 0x1FFC 0x42 = .ok (true, c')
      ∧ c'.myImage ((sampleCart 4 (256 + 3) true).mySize - 2048 + (0x1FFC &&& 0x07FF)) = 0x42
      ∧ (∀ i, i ≠ (sampleCart 4 (256 + 3) true).mySize - 2048 + (0x1FFC &&& 0x07FF)
            → c'.myImage i = (sampleCart 4 (256 + 3) true).myImage i)
      ∧ c'.myRam = (sampleCart 4 (256 + 3) true).myRam ∧ c'.myBankChanged = true :=
  patch_top_slice (sampleCart 4 (256 + 3) true) 4 0x1FFC 0x42 rfl (by decide) (by decide)
    (by decide)

/-- C15: in every cartridge state whose image has `2048 * N` bytes (`N ≥ 1`,
the size a `uInt32`) - any selector, locked or not - `peek` of an address in the
upper half of the window returns `image[S - 2048 + (a & 0x07FF)]` and leaves the
cartridge as it was; the byte is the same whatever the selector and the lock
are. -/
theorem peek_top_slice (c : Cartridge3E) (N a : Nat) (hS : c.mySize = 2048 * N)
    (hN : 0 < N) (h32 : c.mySize < 4294967296) (ha : 0x0800 ≤ a &&& 0x0FFF) :
    c.peek a = .ok (c.myImage (c.mySize - 2048 + (a &&& 0x07FF)), c)
      ∧ ∀ currentBank locked,
          ({ c with myCurrentBank := currentBank, myBankLocked := locked }.peek a).map Prod.fst
            = (c.peek a).map Prod.fst := by
  refine ⟨peek_upper hS hN h32 ha, fun currentBank locked => ?_⟩
  rw [peek_upper hS hN h32 ha,
    peek_upper (c := { c with myCurrentBank := currentBank, myBankLocked := locked }) hS hN h32 ha]
  rfl

theorem peek_top_slice_witness :
    (sampleCart 4 (256 + 3) true).peek 0x1FFC
        = .ok ((sampleCart 4 (256 + 3) true).myImage
                ((sampleCart 4 (256 + 3) true).mySize - 2048 + (0x1FFC &&& 0x07FF)),
               sampleCart 4 (256 + 3) true)
      ∧ ∀ currentBank locked,
          ({ sampleCart 4 (256 + 3) true with
             myCurrentBank := currentBank, myBankLocked := locked }.peek 0x1FFC).map Prod.fst
            = ((sampleCart 4 (256 + 3) true).peek 0x1FFC).map Prod.fst :=
  peek_top_slice (sampleCart 4 (256 + 3) true) 4 0x1FFC rfl (by decide) (by decide) (by decide)

/-- `peek` in the lower half of the window with a ROM bank selected. -/
theorem peek_rom_at {c : Cartridge3E} {a i : Nat} (hlow : a &&& 0x0FFF < 0x0800)
    (hrom : c.myCurrentBank < 256)
    (hi : ((a &&& 0x0FFF) &&& 0x07FF) + (c.myCurrentBank <<< 11) = i) (hlt : i < c.mySize) :
    c.peek a = .ok (c.myImage i, c) := by
  unfold peek
  simp only []
  rw [if_pos hlow, if_pos hrom, hi]
  unfold readImage
  rw [if_pos hlt]
  rfl

/-- `peek` in the read port of the selected RAM bank. -/
theorem peek_ram_at {c : Cartridge3E} {a i : Nat} (hrd : a &&& 0x0FFF < 0x0400)
    (hram : ¬ c.myCurrentBank < 256)
    (hi : ((a &&& 0x0FFF) &&& 0x03FF) + ((c.myCurrentBank - 256) <<< 10) = i)
    (hlt : i < ramSize) :
    c.peek a = .ok (c.myRam i, c) := by
  have hlow : a &&& 0x0FFF < 0x0800 := lt_trans hrd (by norm_num)
  unfold peek
  simp only []
  rw [if_pos hlow, if_neg hram, if_pos hrd, hi]
  unfold readRam
  rw [if_pos hlt]
  rfl

/-- `peek` in the upper half of the window. -/
theorem peek_upper_at {c : Cartridge3E} {a i : Nat} (hhi : ¬ a &&& 0x0FFF < 0x0800)
    (hi : (((a &&& 0x0FFF) &&& 0x07FF) + c.mySize + (4294967296 - 2048)) % 4294967296 = i)
    (hlt : i < c.mySize) :
    c.peek a = .ok (c.myImage i, c) := by
  unfold peek
  simp only []
  rw [if_neg hhi, hi]
  unfold readImage
  rw [if_pos hlt]
  rfl

/-- `patch` in the lower half of the window with a ROM bank selected. -/
theorem patch_rom_at {c : Cartridge3E} {a v i : Nat} (hlow : a &&& 0x0FFF < 0x0800)
    (hrom : c.myCurrentBank < 256)
    (hi : ((a &&& 0x0FFF) &&& 0x07FF) + (c.myCurrentBank <<< 11) = i) (hlt : i < c.mySize) :
    c.patch a v
      = .ok (true, { c with myImage := Function.update c.myImage i v, myBankChanged := true }) := by
  unfold patch
  simp only []
  rw [if_pos hlow, if_pos hrom, hi]
  unfold writeImage
  rw [if_pos hlt]
  rfl

/-- `patch` in the lower half of the window with a RAM bank selected. -/
theorem patch_ram_at {c : Cartridge3E} {a v i : Nat} (hlow : a &&& 0x0FFF < 0x0800)
    (hram : ¬ c.myCurrentBank < 256)
    (hi : ((a &&& 0x0FFF) &&& 0x03FF) + ((c.myCurrentBank - 256) <<< 10) = i)
    (hlt : i < ramSize) :
    c.patch a v
      = .ok (true, { c with myRam := Function.update c.myRam i v, myBankChanged := true }) := by
  unfold patch
  simp only []
  rw [if_pos hlow, if_neg hram, hi]
  unfold writeRam
  rw [if_pos hlt]
  rfl

/-- `patch` in the upper half of the window. -/
theorem patch_upper_at {c : Cartridge3E} {a v i : Nat} (hhi : ¬ a &&& 0x0FFF < 0x0800)
    (hi : (((a &&& 0x0FFF) &&& 0x07FF) + c.mySize + (4294967296 - 2048)) % 4294967296 = i)
    (hlt : i < c.mySize) :
    c.patch a v
      = .ok (true, { c with myImage := Function.update c.myImage i v, myBankChanged := true }) := by
  unfold patch
  simp only []
  rw [if_neg hhi, hi]
  unfold writeImage
  rw [if_pos hlt]
  rfl

/-- C13 fails in the RAM write port: with RAM bank 3 selected (a valid
selector) on the locked sample cartridge, `patch(0x1612, 0x11)` returns true and
the `peek(0x1612)` that follows returns the floating-bus value 0xA5, not 0x11.
Unlocked, the same `peek` moreover overwrites the patched cell with 0xA5. -/
theorem patch_write_port_not_visible :
    validBank 4 (sampleCart 4 (256 + 3) true).myCurrentBank
      ∧ ((sampleCart 4 (256 + 3) true).patch 0x1612 0x11).bind
          (fun r => (r.2.peek 0x1612).map (fun q => (r.1, q.1))) = .ok (true, 0xA5)
      ∧ ((sampleCart 4 (256 + 3) false).patch 0x1612 0x11).bind
          (fun r => (r.2.peek 0x1612).map
            (fun q => (r.1, r.2.myRam (3 * 1024 + 0x212), q.1, q.2.myRam (3 * 1024 + 0x212))))
          = .ok (true, 0x11, 0xA5, 0xA5) :=
  ⟨by decide, rfl, rfl⟩

/-- C13, amended: in every cartridge state with a valid selector (image of
`2048 * N` bytes), `patch(a, v)` returns true, and the `peek(a)` that follows
returns `v` and changes nothing - except when a RAM bank is selected and `a`
lies in the RAM write port (`0x0400 ≤ (a & 0x0FFF) < 0x0800`), where that `peek`
returns the floating-bus value. -/
theorem patch_then_peek (c : Cartridge3E) (N a v : Nat) (hS : c.mySize = 2048 * N)
    (hN : 0 < N) (hv : validBank N c.myCurrentBank) :
    ∃ c', c.patch a v = .ok (true, c')
      ∧ (¬ (256 ≤ c.myCurrentBank ∧ 0x0400 ≤ a &&& 0x0FFF ∧ a &&& 0x0FFF < 0x0800) →
          c'.peek a = .ok (v, c'))
      ∧ (256 ≤ c.myCurrentBank ∧ 0x0400 ≤ a &&& 0x0FFF ∧ a &&& 0x0FFF < 0x0800 →
          ∃ c'', c'.peek a = .ok (c.mySystem.getDataBusState 0xFF, c'')) := by
  have hv' := hv
  unfold validBank at hv'
  have h7 := and_07FF_lt (a &&& 0x0FFF)
  have h3 : (a &&& 0x0FFF) &&& 0x03FF < 1024 := by
    rw [and_03FF]; exact Nat.mod_lt _ (by norm_num)
  by_cases hlow : a &&& 0x0FFF < 0x0800
  · by_cases hrom : c.myCurrentBank < 256
    · obtain ⟨i, hi⟩ : ∃ i, ((a &&& 0x0FFF) &&& 0x07FF) + (c.myCurrentBank <<< 11) = i := ⟨_, rfl⟩
      have hlt : i < c.mySize := by rw [← hi, shl_11]; omega
      refine ⟨_, patch_rom_at hlow hrom hi hlt, fun _ => ?_, fun h => absurd h.1 (by omega)⟩
      have hp := peek_rom_at (a := a) (i := i)
        (c := { c with
                myImage := Function.update c.myImage i v, myBankChanged := true })
        hlow hrom hi hlt
      rw [hp]
      simp only [Function.update_same]
    · obtain ⟨i, hi⟩ :
          ∃ i, ((a &&& 0x0FFF) &&& 0x03FF) + ((c.myCurrentBank - 256) <<< 10) = i := ⟨_, rfl⟩
      have hlt : i < ramSize := by rw [← hi, shl_10]; unfold ramSize; omega
      refine ⟨_, patch_ram_at hlow hrom hi hlt, fun hno => ?_, fun hwr => ?_⟩
      · have hrd : a &&& 0x0FFF < 0x0400 := by
          by_contra hge
          exact hno ⟨by omega, by omega, hlow⟩
        have hp := peek_ram_at (a := a) (i := i)
          (c := { c with
                  myRam := Function.update c.myRam i v, myBankChanged := true })
          hrd hrom hi hlt
        rw [hp]
        simp only [Function.update_same]
      · have hnr : ¬ a &&& 0x0FFF < 0x0400 := by omega
        unfold peek
        simp only []
        rw [if_pos hlow, if_neg hrom, if_neg hnr, hi]
        unfold bankLocked writeRam triggerReadFromWritePort
        simp only [hlt, if_true]
        split_ifs
        · exact ⟨_, rfl⟩
        · exact ⟨_, rfl⟩
  · obtain ⟨i, hi⟩ :
        ∃ i, (((a &&& 0x0FFF) &&& 0x07FF) + c.mySize + (4294967296 - 2048)) % 4294967296 = i :=
      ⟨_, rfl⟩
    have hlt : i < c.mySize := by rw [← hi]; omega
    refine ⟨_, patch_upper_at hlow hi hlt, fun _ => ?_, fun h => absurd h.2.2 hlow⟩
    have hp := peek_upper_at (a := a) (i := i)
      (c := { c with
              myImage := Function.update c.myImage i v, myBankChanged := true })
      hlow hi hlt
    rw [hp]
    simp only [Function.update_same]

theorem patch_then_peek_witness :
    ∃ c', (sampleCart 4 (256 + 3) false).patch 0x1212 0x11 = .ok (true, c')
      ∧ (¬ (256 ≤ (sampleCart 4 (256 + 3) false).myCurrentBank ∧ 0x0400 ≤ 0x1212 &&& 0x0FFF
            ∧ 0x1212 &&& 0x0FFF < 0x0800) →
          c'.peek 0x1212 = .ok (0x11, c'))
      ∧ (256 ≤ (sampleCart 4 (256 + 3) false).myCurrentBank ∧ 0x0400 ≤ 0x1212 &&& 0x0FFF
            ∧ 0x1212 &&& 0x0FFF < 0x0800 →
          ∃ c'', c'.peek 0x1212
            = .ok ((sampleCart 4 (256 + 3) false).mySystem.getDataBusState 0xFF, c'')) :=
  patch_then_peek (sampleCart 4 (256 + 3) false) 4 0x1212 0x11 rfl (by decide) (by decide)

end Cartridge3E

/-! ## Bounds of the index array and of the RAM buffer -/

namespace DelayQueue

/-- C19 fails at the 8-bit address 0xFF: the array has `indicesSize = 0xFF`
elements, so the store `myIndices[0xFF] = 0xFF` of the entry loop is one past
its end, whatever the rest of the bucket, the indices and the executor are. -/
theorem executeEntries_address_0xFF_out_of_bounds :
    (0xFF : Nat) < 256 ∧ ¬ (0xFF < indicesSize)
      ∧ executeEntries recordCall [⟨0xFF, 0⟩] (fun _ => 0xFF) [] = .error .outOfBounds
      ∧ (executeEntries recordCall [⟨0x00, 1⟩, ⟨0xFE, 2⟩] (fun _ => 0xFF) []).map Prod.snd
          = .ok [(0x00, 1), (0xFE, 2)] :=
  ⟨by decide, by decide, rfl, rfl⟩

end DelayQueue

namespace Cartridge3E

/-- The RAM input loop stays inside `myRam` when it is entered with
`addr + n ≤ 32768`. -/
theorem loadRam_in_bounds (n addr : Nat) (ram : Nat → Nat) (inp : Serializer)
    (h : addr + n ≤ ramSize) :
    loadRam n addr ram inp ≠ .outOfBounds := by
  induction n generalizing addr ram inp with
  | zero => simp [loadRam]
  | succ n ih =>
    have haddr : addr < ramSize := by omega
    unfold loadRam
    cases hget : inp.getByte with
    | none => simp
    | some r =>
      obtain ⟨b, inp'⟩ := r
      simp only [haddr, if_true]
      exact ih (addr + 1) _ inp' (by omega)

/-- The RAM input loop stores outside `myRam` when the stream supplies bytes
for more cells than are left from `addr` on. -/
theorem loadRam_overrun (b : Int) (n addr : Nat) (ram : Nat → Nat) (rest : Serializer)
    (h1 : addr ≤ ramSize) (h2 : ramSize < addr + n) :
    loadRam n addr ram (List.replicate n (Item.byte b) ++ rest) = .outOfBounds := by
  induction n generalizing addr ram with
  | zero => omega
  | succ n ih =>
    rw [List.replicate_succ, List.cons_append]
    unfold loadRam
    simp only [Serializer.getByte]
    by_cases haddr : addr < ramSize
    · rw [if_pos haddr]
      exact ih (addr + 1) _ (by omega) (by omega)
    · rw [if_neg haddr]

/-- C20 fails for a stream with the right tag that carries the RAM length
32769 and as many bytes: `load` stores the last of them at `myRam[32768]`, one
past the end of the 32768-byte buffer. -/
theorem load_overlong_state_out_of_bounds :
    overlongState.getString = some ("Cartridge3E", .int 0 :: .int 32769
        :: List.replicate 32769 (.byte 0))
      ∧ (sampleCart 4 0 false).load "Cartridge3E" overlongState = .error .outOfBounds := by
  refine ⟨rfl, ?_⟩
  have h32 : toUInt32 (32769 : Int) = 32769 := by decide
  have hrun := loadRam_overrun 0 32769 0 (sampleCart 4 0 false).myRam []
    (Nat.zero_le _) (by decide)
  rw [List.append_nil] at hrun
  unfold overlongState
  rw [load_tagged, h32, hrun]

end Cartridge3E

/-! ## Consecutive calls of execute -/

namespace DelayQueue

/-- One `execute` on a queue of at most 256 buckets, cursor inside, every
address below 0xFF. -/
theorem execute_step {σ : Type} (executor : Nat → Nat → σ → σ) (q : DelayQueue) (s : σ)
    (hidx : q.myIndex < q.myMembers.length) (hlen : q.myMembers.length ≤ 256)
    (hrange : ∀ b ∈ q.myMembers, ∀ e ∈ b, e.address < indicesSize) :
    ∃ q', q.execute executor s
        = .ok (q', (q.myMembers.get ⟨q.myIndex, hidx⟩).foldl
                  (fun s e => executor e.address e.value s) s)
      ∧ q'.myMembers = q.myMembers.set q.myIndex []
      ∧ q'.myIndex = (q.myIndex + 1) % q.myMembers.length := by
  obtain ⟨q', hex, hm, hi, -, -⟩ :=
    execute_in_range q executor s (q.myMembers.get ⟨q.myIndex, hidx⟩) hlen
      (List.getElem?_eq_getElem hidx)
      (hrange _ (List.get_mem _ _ _))
  exact ⟨q', hex, hm, hi⟩

theorem executeTimes_add {σ : Type} (executor : Nat → Nat → σ → σ) (a b : Nat)
    (q : DelayQueue) (s : σ) :
    executeTimes executor (a + b) q s
      = (executeTimes executor a q s).bind (fun r => executeTimes executor b r.1 r.2) := by
  induction a generalizing q s with
  | zero => simp [executeTimes, Except.bind]
  | succ a ih =>
    rw [Nat.add_right_comm]
    simp only [executeTimes]
    cases hex : q.execute executor s with
    | error e => rfl
    | ok r => exact ih r.1 r.2

/-- A run of `k` calls of `execute` that does not pass the last bucket
(`cursor + k ≤ N`): the buckets `cursor .. cursor + k - 1` are delivered in
order and emptied, the others are untouched. -/
theorem executeTimes_run {σ : Type} (executor : Nat → Nat → σ → σ) (k : Nat) :
    ∀ (q : DelayQueue) (s : σ), q.myIndex + k ≤ q.myMembers.length →
      q.myMembers.length ≤ 256 →
      (∀ b ∈ q.myMembers, ∀ e ∈ b, e.address < indicesSize) →
      ∃ q', executeTimes executor k q s
          = .ok (q', ((q.myMembers.drop q.myIndex).take k).flatten.foldl
                    (fun s e => executor e.address e.value s) s)
        ∧ q'.myMembers.length = q.myMembers.length
        ∧ (∀ j, q'.myMembers[j]?
              = if q.myIndex ≤ j ∧ j < q.myIndex + k then some [] else q.myMembers[j]?)
        ∧ q'.myIndex = (if k = 0 then q.myIndex else (q.myIndex + k) % q.myMembers.length)
        ∧ (∀ b ∈ q'.myMembers, ∀ e ∈ b, e.address < indicesSize) := by
  induction k with
  | zero =>
    intro q s _ _ hrange
    refine ⟨q, rfl, rfl, fun j => ?_, rfl, hrange⟩
    rw [if_neg (by omega)]
  | succ k ih =>
    intro q s hk hlen hrange
    have hidx : q.myIndex < q.myMembers.length := by omega
    obtain ⟨q1, hex, hm1, hi1⟩ := execute_step executor q s hidx hlen hrange
    have hlen1 : q1.myMembers.length = q.myMembers.length := by rw [hm1, List.length_set]
    have hcase : k = 0 ∨ (0 < k ∧ q1.myIndex = q.myIndex + 1) := by
      rcases Nat.eq_zero_or_pos k with h | h
      · exact Or.inl h
      · exact Or.inr ⟨h, by rw [hi1]; exact Nat.mod_eq_of_lt (by omega)⟩
    have hk1 : q1.myIndex + k ≤ q1.myMembers.length := by
      rcases hcase with h | ⟨-, h⟩
      · rw [h, hlen1, hi1, Nat.add_zero]
        exact Nat.le_of_lt (Nat.mod_lt _ (by omega))
      · rw [h, hlen1]; omega
    have hrange1 : ∀ b ∈ q1.myMembers, ∀ e ∈ b, e.address < indicesSize := by
      intro b hb e he
      rw [hm1] at hb
      rcases List.mem_or_eq_of_mem_set hb with h | h
      · exact hrange b h e he
      · rw [h] at he; exact absurd he (List.not_mem_nil e)
    obtain ⟨q', hrun, hlen', hget', hidx', hrange'⟩ := ih q1 _ hk1 (hlen1 ▸ hlen) hrange1
    refine ⟨q', ?_, hlen'.trans hlen1, fun j => ?_, ?_, hrange'⟩
    · have hdrop : (q1.myMembers.drop q1.myIndex).take k
          = (q.myMembers.drop (q.myIndex + 1)).take k := by
        rcases hcase with h | ⟨-, h⟩
        · rw [h]; rfl
        · rw [h, hm1, List.drop_set_of_lt _ _ (Nat.lt_succ_self _)]
      simp only [executeTimes, hex]
      rw [hrun, hdrop, List.drop_eq_getElem_cons hidx, List.take_succ_cons, List.flatten_cons,
        List.foldl_append]
      rfl
    · rw [hget' j, hm1, List.getElem?_set]
      rcases hcase with h | ⟨-, h⟩
      · subst h
        by_cases hj : q.myIndex = j
        · rw [if_neg (by omega), if_pos hj, if_pos hidx, if_pos (by omega)]
        · rw [if_neg (by omega), if_neg hj, if_neg (by omega)]
      · rw [h]
        by_cases hj : q.myIndex = j
        · rw [if_neg (by omega), if_pos hj, if_pos hidx, if_pos (by omega)]
        · by_cases hin : q.myIndex + 1 ≤ j ∧ j < q.myIndex + 1 + k
          · rw [if_pos hin, if_pos (by omega)]
          · rw [if_neg hin, if_neg hj, if_neg (by omega)]
    · rw [hidx', if_neg (Nat.succ_ne_zero k), hlen1]
      rcases hcase with h | ⟨h0, h⟩
      · subst h
        rw [if_pos rfl, hi1]
      · rw [if_neg (by omega), h, Nat.add_right_comm, Nat.add_assoc]

/-- Any number of consecutive calls succeeds on a queue of at most 256
buckets whose addresses are below 0xFF, and the cursor stays below `N`. -/
theorem executeTimes_cursor {σ : Type} (executor : Nat → Nat → σ → σ) (k : Nat) :
    ∀ (q : DelayQueue) (s : σ), q.myIndex < q.myMembers.length →
      q.myMembers.length ≤ 256 →
      (∀ b ∈ q.myMembers, ∀ e ∈ b, e.address < indicesSize) →
      ∃ q' s', executeTimes executor k q s = .ok (q', s')
        ∧ q'.myMembers.length = q.myMembers.length ∧ q'.myIndex < q.myMembers.length := by
  induction k with
  | zero => exact fun q s hidx _ _ => ⟨q, s, rfl, rfl, hidx⟩
  | succ k ih =>
    intro q s hidx hlen hrange
    obtain ⟨q1, hex, hm1, hi1⟩ := execute_step executor q s hidx hlen hrange
    have hlen1 : q1.myMembers.length = q.myMembers.length := by rw [hm1, List.length_set]
    have hidx1 : q1.myIndex < q1.myMembers.length := by
      rw [hlen1, hi1]; exact Nat.mod_lt _ (by omega)
    have hrange1 : ∀ b ∈ q1.myMembers, ∀ e ∈ b, e.address < indicesSize := by
      intro b hb e he
      rw [hm1] at hb
      rcases List.mem_or_eq_of_mem_set hb with h | h
      · exact hrange b h e he
      · rw [h] at he; exact absurd he (List.not_mem_nil e)
    obtain ⟨q', s', hrun, hlen', hidx'⟩ := ih q1 _ hidx1 (hlen1 ▸ hlen) hrange1
    refine ⟨q', s', ?_, hlen'.trans hlen1, hlen1 ▸ hidx'⟩
    simp only [executeTimes, hex]
    exact hrun

/-- `N` consecutive calls of `execute` on a queue of `N ≤ 256` buckets, cursor
inside, every address below 0xFF: the entries are delivered bucket by bucket
from the cursor on, wrapping at the end, in insertion order within a bucket;
afterwards every bucket is empty and the cursor is where it started. -/
theorem executeTimes_full_cycle {σ : Type} (executor : Nat → Nat → σ → σ) (q : DelayQueue)
    (s : σ) (hidx : q.myIndex < q.myMembers.length) (hlen : q.myMembers.length ≤ 256)
    (hrange : ∀ b ∈ q.myMembers, ∀ e ∈ b, e.address < indicesSize) :
    ∃ q', executeTimes executor q.myMembers.length q s
        = .ok (q', (q.myMembers.drop q.myIndex ++ q.myMembers.take q.myIndex).flatten.foldl
                  (fun s e => executor e.address e.value s) s)
      ∧ q'.myMembers = List.replicate q.myMembers.length []
      ∧ q'.myIndex = q.myIndex := by
  obtain ⟨qa, hrunA, hlenA, hgetA, hidxA, hrangeA⟩ :=
    executeTimes_run executor (q.myMembers.length - q.myIndex) q s (by omega) hlen hrange
  have hidxA0 : qa.myIndex = 0 := by
    rw [hidxA, if_neg (by omega), Nat.add_sub_cancel' (Nat.le_of_lt hidx), Nat.mod_self]
  obtain ⟨qb, hrunB, hlenB, hgetB, hidxB, -⟩ :=
    executeTimes_run executor q.myIndex qa _ (by rw [hidxA0, hlenA]; omega)
      (hlenA ▸ hlen) hrangeA
  refine ⟨qb, ?_, ?_, ?_⟩
  · have hsplit : q.myMembers.length = (q.myMembers.length - q.myIndex) + q.myIndex := by omega
    have htakeA : (q.myMembers.drop q.myIndex).take (q.myMembers.length - q.myIndex)
        = q.myMembers.drop q.myIndex :=
      List.take_of_length_le (by rw [List.length_drop])
    have htakeB : (qa.myMembers.drop qa.myIndex).take q.myIndex = q.myMembers.take q.myIndex := by
      rw [hidxA0, List.drop_zero]
      apply List.ext_getElem?
      intro j
      rw [List.getElem?_take, List.getElem?_take, hgetA j]
      by_cases hj : j < q.myIndex
      · rw [if_pos hj, if_pos hj, if_neg (by omega)]
      · rw [if_neg hj, if_neg hj]
    conv_lhs => rw [hsplit]
    rw [executeTimes_add, hrunA]
    show executeTimes executor q.myIndex qa _ = _
    rw [hrunB, htakeA, htakeB, List.flatten_append, List.foldl_append]
  · apply List.ext_getElem?
    intro j
    rw [hgetB j, hgetA j, List.getElem?_replicate, hidxA0]
    by_cases hj : j < q.myIndex
    · rw [if_pos ⟨Nat.zero_le j, by omega⟩, if_pos (by omega)]
    · by_cases hjN : j < q.myMembers.length
      · rw [if_neg (by omega), if_pos ⟨by omega, by omega⟩, if_pos hjN]
      · rw [if_neg (by omega), if_neg (by omega), if_neg hjN]
        exact List.getElem?_eq_none (by omega)
  · rw [hidxB, hidxA0, hlenA]
    by_cases h0 : q.myIndex = 0
    · rw [if_pos h0, h0]
    · rw [if_neg h0, Nat.zero_add, Nat.mod_eq_of_lt hidx]

/-- C18 fails for a queue that holds an entry with address 0xFF:
`lastAddressQueue` has `N = 2` buckets and cursor `0 < 2`; the first of the two
calls delivers `(0x2C, 7)`, the second stores `myIndices[0xFF]`, one element
past the end of `uInt8 myIndices[0xFF]`. -/
theorem executeTimes_address_0xFF_out_of_bounds :
    1 ≤ lastAddressQueue.myMembers.length
      ∧ lastAddressQueue.myIndex < lastAddressQueue.myMembers.length
      ∧ (executeTimes recordCall 1 lastAddressQueue []).map (fun r => (r.1.myIndex, r.2))
          = .ok (1, [(0x2C, 7)])
      ∧ executeTimes recordCall lastAddressQueue.myMembers.length lastAddressQueue []
          = .error .outOfBounds :=
  ⟨by decide, by decide, rfl, rfl⟩

end DelayQueue

/-! ## The page access table -/

theorem shiftRight_add_stride (address shift : Nat) :
    (address + 2 ^ shift) >>> shift = address >>> shift + 1 := by
  rw [Nat.shiftRight_eq_div_pow, Nat.shiftRight_eq_div_pow]
  exact Nat.add_div_right address (Nat.two_pow_pos shift)

theorem loopTable_step (shift limit : Nat) (access : Nat → PageAccess) (address : Nat)
    (old : Nat → PageAccess) (hlt : address < limit) :
    loopTable shift limit access (address + 2 ^ shift)
        (fun p => if p = address >>> shift then access address else old p)
      = loopTable shift limit access address old := by
  funext p
  unfold loopTable
  rw [shiftRight_add_stride]
  beta_reduce
  rcases Nat.lt_trichotomy p (address >>> shift) with h | h | h
  · rw [if_neg (by omega), if_neg (by omega), if_neg (by omega)]
  · subst h
    rw [if_neg (by omega), if_pos rfl, Nat.sub_self, Nat.zero_mul, Nat.add_zero,
      if_pos ⟨Nat.le_refl _, hlt⟩]
  · obtain ⟨d, hd⟩ : ∃ d, p = address >>> shift + 1 + d := ⟨p - (address >>> shift + 1), by omega⟩
    have h1 : p - (address >>> shift + 1) = d := by omega
    have h2 : p - address >>> shift = d + 1 := by omega
    have h3 : address + 2 ^ shift + d * 2 ^ shift = address + (d + 1) * 2 ^ shift := by
      rw [Nat.succ_mul]; omega
    rw [h1, h2, h3]
    by_cases hc : address + (d + 1) * 2 ^ shift < limit
    · rw [if_pos ⟨by omega, hc⟩, if_pos ⟨by omega, hc⟩]
    · rw [if_neg (fun hh => hc hh.2), if_neg (by omega), if_neg (fun hh => hc hh.2)]

theorem loopTable_done (shift limit : Nat) (access : Nat → PageAccess) (address : Nat)
    (old : Nat → PageAccess) (hge : ¬ address < limit) :
    loopTable shift limit access address old = old := by
  funext p
  unfold loopTable
  rw [if_neg (by omega)]

/-- The page loop in closed form: only the page access table changes, and it
becomes `loopTable`. -/
theorem pageLoop_eq (shift limit : Nat) (access : Nat → PageAccess) (fuel address : Nat)
    (sys : System) (hfuel : limit - address ≤ fuel) :
    pageLoop shift limit access fuel address sys
      = { sys with
          pageAccessTable := loopTable shift limit access address sys.pageAccessTable } := by
  induction fuel generalizing address sys with
  | zero =>
    rw [loopTable_done shift limit access address _ (by omega)]
    rfl
  | succ fuel ih =>
    have hstride : 1 <<< shift = 2 ^ shift := by rw [Nat.shiftLeft_eq, Nat.one_mul]
    have hpos : 0 < 2 ^ shift := Nat.two_pow_pos shift
    rw [pageLoop_succ, hstride]
    by_cases hlt : address < limit
    · rw [if_pos hlt, ih _ _ (by omega)]
      show ({ sys with pageAccessTable := _ } : System) = _
      rw [← loopTable_step shift limit access address sys.pageAccessTable hlt]
      rfl
    · rw [if_neg hlt, loopTable_done shift limit access address _ hlt]

theorem loopTable_idem (shift limit : Nat) (access : Nat → PageAccess) (address : Nat)
    (old : Nat → PageAccess) :
    loopTable shift limit access address (loopTable shift limit access address old)
      = loopTable shift limit access address old := by
  funext p
  unfold loopTable
  split_ifs <;> rfl

theorem loopTable_idem_two (shift l1 l2 : Nat) (f1 f2 : Nat → PageAccess) (a1 a2 : Nat)
    (old : Nat → PageAccess) :
    loopTable shift l2 f2 a2 (loopTable shift l1 f1 a1
        (loopTable shift l2 f2 a2 (loopTable shift l1 f1 a1 old)))
      = loopTable shift l2 f2 a2 (loopTable shift l1 f1 a1 old) := by
  funext p
  unfold loopTable
  split_ifs <;> rfl

/-- The table of a loop over whole pages, at the page of an address inside
the range of the loop. -/
theorem loopTable_inside (shift limit : Nat) (access : Nat → PageAccess) (start : Nat)
    (old : Nat → PageAccess) (A i j : Nat) (hs : i * 2 ^ shift = start)
    (hl : j * 2 ^ shift = limit) (h1 : start ≤ A) (h2 : A < limit) :
    loopTable shift limit access start old (A >>> shift)
      = access ((A >>> shift) * 2 ^ shift) := by
  have hpos : 0 < 2 ^ shift := Nat.two_pow_pos shift
  have hi : start >>> shift = i := by
    rw [Nat.shiftRight_eq_div_pow, ← hs, Nat.mul_div_cancel _ hpos]
  have hq : A >>> shift = A / 2 ^ shift := Nat.shiftRight_eq_div_pow A shift
  have hiq : i ≤ A / 2 ^ shift := (Nat.le_div_iff_mul_le hpos).mpr (hs ▸ h1)
  have hqj : A / 2 ^ shift < j := (Nat.div_lt_iff_lt_mul hpos).mpr (hl ▸ h2)
  have hsum : start + (A / 2 ^ shift - i) * 2 ^ shift = A / 2 ^ shift * 2 ^ shift := by
    rw [← hs, ← Nat.add_mul, Nat.add_sub_cancel' hiq]
  have hlt : A / 2 ^ shift * 2 ^ shift < limit := by
    rw [← hl]; exact Nat.mul_lt_mul_of_pos_right hqj hpos
  unfold loopTable
  rw [hi, hq, hsum, if_pos ⟨hiq, hlt⟩]

/-- The table of a loop over whole pages, at the page of an address outside
the range of the loop. -/
theorem loopTable_outside (shift limit : Nat) (access : Nat → PageAccess) (start : Nat)
    (old : Nat → PageAccess) (A i j : Nat) (hs : i * 2 ^ shift = start)
    (hl : j * 2 ^ shift = limit) (h : A < start ∨ limit ≤ A) :
    loopTable shift limit access start old (A >>> shift) = old (A >>> shift) := by
  have hpos : 0 < 2 ^ shift := Nat.two_pow_pos shift
  have hi : start >>> shift = i := by
    rw [Nat.shiftRight_eq_div_pow, ← hs, Nat.mul_div_cancel _ hpos]
  have hq : A >>> shift = A / 2 ^ shift := Nat.shiftRight_eq_div_pow A shift
  unfold loopTable
  rw [hi, hq]
  apply if_neg
  rintro ⟨hiq, hlt⟩
  have hsum : start + (A / 2 ^ shift - i) * 2 ^ shift = A / 2 ^ shift * 2 ^ shift := by
    rw [← hs, ← Nat.add_mul, Nat.add_sub_cancel' hiq]
  rw [hsum] at hlt
  rcases h with h | h
  · have : A / 2 ^ shift < i := (Nat.div_lt_iff_lt_mul hpos).mpr (hs ▸ h)
    omega
  · have hjq : j ≤ A / 2 ^ shift := (Nat.le_div_iff_mul_le hpos).mpr (hl ▸ h)
    have : j * 2 ^ shift ≤ A / 2 ^ shift * 2 ^ shift := Nat.mul_le_mul_right _ hjq
    omega

/-- The addresses 0x1000, 0x1400, 0x1800 and 0x2000 are page boundaries when
pages have at most 1024 bytes. -/
theorem window_aligned (shift : Nat) (h : shift ≤ 10) :
    (0x1000 >>> shift) * 2 ^ shift = 0x1000 ∧ (0x1400 >>> shift) * 2 ^ shift = 0x1400
      ∧ (0x1800 >>> shift) * 2 ^ shift = 0x1800 ∧ (0x2000 >>> shift) * 2 ^ shift = 0x2000 := by
  interval_cases shift <;> decide

theorem page_offset_07FF (shift a : Nat) (h : shift ≤ 10) :
    (((a >>> shift) * 2 ^ shift) &&& 0x07FF) + (a &&& (2 ^ shift - 1)) = a &&& 0x07FF := by
  rw [Nat.and_pow_two_sub_one_eq_mod a shift, Nat.and_pow_two_sub_one_eq_mod _ 11,
    Nat.and_pow_two_sub_one_eq_mod _ 11, Nat.shiftRight_eq_div_pow]
  interval_cases shift <;> norm_num <;> omega

theorem page_offset_03FF (shift a : Nat) (h : shift ≤ 10) :
    (((a >>> shift) * 2 ^ shift) &&& 0x03FF) + (a &&& (2 ^ shift - 1)) = a &&& 0x03FF := by
  rw [Nat.and_pow_two_sub_one_eq_mod a shift, Nat.and_pow_two_sub_one_eq_mod _ 10,
    Nat.and_pow_two_sub_one_eq_mod _ 10, Nat.shiftRight_eq_div_pow]
  interval_cases shift <;> norm_num <;> omega

namespace Cartridge3E

theorem mapRomPages_eq (sys : System) (offset : Nat) :
    mapRomPages sys offset
      = { sys with
          pageAccessTable :=
            loopTable sys.pageShift 0x1800 (romAccess offset) 0x1000 sys.pageAccessTable } :=
  pageLoop_eq _ _ _ _ _ _ (Nat.le_refl _)

theorem mapRamPages_eq (sys : System) (offset : Nat) :
    mapRamPages sys offset
      = { sys with
          pageAccessTable :=
            loopTable sys.pageShift 0x1800 (ramWriteAccess offset) 0x1400
              (loopTable sys.pageShift 0x1400 (ramReadAccess offset) 0x1000
                sys.pageAccessTable) } := by
  unfold mapRamPages
  simp only []
  rw [pageLoop_eq _ _ _ _ _ _ (Nat.le_refl _), pageLoop_eq _ _ _ _ _ _ (Nat.le_refl _)]
  rfl

theorem mapRomPages_idem (sys : System) (offset : Nat) :
    mapRomPages (mapRomPages sys offset) offset = mapRomPages sys offset := by
  rw [mapRomPages_eq sys, mapRomPages_eq]
  show ({ sys with pageAccessTable := _ } : System) = _
  rw [← loopTable_idem sys.pageShift 0x1800 (romAccess offset) 0x1000 sys.pageAccessTable]
  simp only [loopTable_idem]

theorem mapRamPages_idem (sys : System) (offset : Nat) :
    mapRamPages (mapRamPages sys offset) offset = mapRamPages sys offset := by
  rw [mapRamPages_eq sys, mapRamPages_eq]
  show ({ sys with pageAccessTable := _ } : System) = { sys with pageAccessTable := _ }
  simp only [loopTable_idem_two]

/-- C14: on an unlocked cartridge with an image of `2048 * N` bytes
(`N ≥ 1`), for every `n` (in range or not), a second `bank(n)` returns exactly
the cartridge the first one returned - same page mapping, same selector - and
the RAM after either call is the RAM before the first. -/
theorem bank_idempotent (c : Cartridge3E) (N n : Nat) (hS : c.mySize = 2048 * N) (hN : 0 < N)
    (hu : c.myBankLocked = false) :
    ∃ c1, c.bank n = .ok c1 ∧ c1.bank n = .ok c1 ∧ c1.myRam = c.myRam
      ∧ ∀ c2, c1.bank n = .ok c2 →
          c2.mySystem.pageAccessTable = c1.mySystem.pageAccessTable
            ∧ c2.myCurrentBank = c1.myCurrentBank ∧ c2.myRam = c.myRam := by
  have hfinish : ∀ c1 : Cartridge3E, c1.bank n = .ok c1 → c1.myRam = c.myRam →
      ∀ c2, c1.bank n = .ok c2 →
        c2.mySystem.pageAccessTable = c1.mySystem.pageAccessTable
          ∧ c2.myCurrentBank = c1.myCurrentBank ∧ c2.myRam = c.myRam := by
    intro c1 h1 hram c2 h2
    rw [h1] at h2
    cases h2
    exact ⟨rfl, rfl, hram⟩
  by_cases hn : n < 256
  · have h1 := bank_rom hS hN hu hn
    have h2 := bank_rom (N := N) (b := n)
      (c := { c with
              myCurrentBank := n % N, mySystem := mapRomPages c.mySystem ((n % N) <<< 11),
              myBankChanged := true })
      hS hN hu hn
    simp only [mapRomPages_idem] at h2
    exact ⟨_, h1, h2, rfl, hfinish _ h2 rfl⟩
  · have h1 := bank_ram (n := n) hu (by omega)
    have h2 := bank_ram (n := n)
      (c := { c with
              myCurrentBank := (n - 256) % 32 + 256,
              mySystem := mapRamPages c.mySystem (((n - 256) % 32) <<< 10),
              myBankChanged := true })
      hu (by omega)
    simp only [mapRamPages_idem] at h2
    exact ⟨_, h1, h2, rfl, hfinish _ h2 rfl⟩

theorem bank_idempotent_witness :
    ∃ c1, (sampleCart 4 0 false).bank (256 + 5) = .ok c1 ∧ c1.bank (256 + 5) = .ok c1
      ∧ c1.myRam = (sampleCart 4 0 false).myRam
      ∧ ∀ c2, c1.bank (256 + 5) = .ok c2 →
          c2.mySystem.pageAccessTable = c1.mySystem.pageAccessTable
            ∧ c2.myCurrentBank = c1.myCurrentBank ∧ c2.myRam = (sampleCart 4 0 false).myRam :=
  bank_idempotent (sampleCart 4 0 false) 4 (256 + 5) rfl (by decide) rfl

/-! ## The pages of the bank window -/

theorem mapRomPages_inside (sys : System) (offset shift A : Nat) (hshift : sys.pageShift = shift)
    (hle : shift ≤ 10) (h1 : 0x1000 ≤ A) (h2 : A < 0x1800) :
    (mapRomPages sys offset).pageAccessTable (A >>> shift)
      = romAccess offset ((A >>> shift) * 2 ^ shift) := by
  obtain ⟨e1, -, e3, -⟩ := window_aligned shift hle
  rw [mapRomPages_eq, hshift]
  exact loopTable_inside shift 0x1800 _ 0x1000 _ A _ _ e1 e3 h1 h2

theorem mapRomPages_outside (sys : System) (offset shift A : Nat)
    (hshift : sys.pageShift = shift) (hle : shift ≤ 10) (h : A < 0x1000 ∨ 0x1800 ≤ A) :
    (mapRomPages sys offset).pageAccessTable (A >>> shift) = sys.pageAccessTable (A >>> shift) := by
  obtain ⟨e1, -, e3, -⟩ := window_aligned shift hle
  rw [mapRomPages_eq, hshift]
  exact loopTable_outside shift 0x1800 _ 0x1000 _ A _ _ e1 e3 h

theorem mapRamPages_read (sys : System) (offset shift A : Nat) (hshift : sys.pageShift = shift)
    (hle : shift ≤ 10) (h1 : 0x1000 ≤ A) (h2 : A < 0x1400) :
    (mapRamPages sys offset).pageAccessTable (A >>> shift)
      = ramReadAccess offset ((A >>> shift) * 2 ^ shift) := by
  obtain ⟨e1, e2, e3, -⟩ := window_aligned shift hle
  rw [mapRamPages_eq, hshift]
  show loopTable shift 0x1800 _ 0x1400 _ (A >>> shift) = _
  rw [loopTable_outside shift 0x1800 _ 0x1400 _ A _ _ e2 e3 (Or.inl h2)]
  exact loopTable_inside shift 0x1400 _ 0x1000 _ A _ _ e1 e2 h1 h2

theorem mapRamPages_write (sys : System) (offset shift A : Nat) (hshift : sys.pageShift = shift)
    (hle : shift ≤ 10) (h1 : 0x1400 ≤ A) (h2 : A < 0x1800) :
    (mapRamPages sys offset).pageAccessTable (A >>> shift)
      = ramWriteAccess offset ((A >>> shift) * 2 ^ shift) := by
  obtain ⟨-, e2, e3, -⟩ := window_aligned shift hle
  rw [mapRamPages_eq, hshift]
  exact loopTable_inside shift 0x1800 _ 0x1400 _ A _ _ e2 e3 h1 h2

theorem mapRamPages_outside (sys : System) (offset shift A : Nat)
    (hshift : sys.pageShift = shift) (hle : shift ≤ 10) (h : A < 0x1000 ∨ 0x1800 ≤ A) :
    (mapRamPages sys offset).pageAccessTable (A >>> shift) = sys.pageAccessTable (A >>> shift) := by
  obtain ⟨e1, e2, e3, -⟩ := window_aligned shift hle
  rw [mapRamPages_eq, hshift]
  show loopTable shift 0x1800 _ 0x1400 _ (A >>> shift) = _
  rw [loopTable_outside shift 0x1800 _ 0x1400 _ A _ _ e2 e3 (by omega),
    loopTable_outside shift 0x1400 _ 0x1000 _ A _ _ e1 e2 (by omega)]

/-- With pages of at most 1024 bytes no page holds an address of the read
port and an address of the write port. -/
theorem ports_disjoint (shift A B : Nat) (hle : shift ≤ 10) (hA : A < 0x1400)
    (hB : 0x1400 ≤ B) : A >>> shift ≠ B >>> shift := by
  obtain ⟨-, e2, -, -⟩ := window_aligned shift hle
  have hpos : 0 < 2 ^ shift := Nat.two_pow_pos shift
  rw [Nat.shiftRight_eq_div_pow, Nat.shiftRight_eq_div_pow]
  have h1 : A / 2 ^ shift < 0x1400 >>> shift := (Nat.div_lt_iff_lt_mul hpos).mpr (e2.symm ▸ hA)
  have h2 : 0x1400 >>> shift ≤ B / 2 ^ shift := (Nat.le_div_iff_mul_le hpos).mpr (e2.symm ▸ hB)
  omega

/-- After `bank(256 + r)` on an unlocked cartridge whose System has pages of
`2^shift ≤ 1024` bytes: every page of the read port 0x1000-0x13FF has the
direct-read base `ram[(r mod 32) * 1024 + (pageStart & 0x03FF)]` and no
direct-write base, every page of the write port 0x1400-0x17FF has that
direct-write base and no direct-read base, and the two groups of pages are
disjoint. -/
theorem bank_ram_pages (c : Cartridge3E) (r shift : Nat) (hu : c.myBankLocked = false)
    (hshift : c.mySystem.pageShift = shift) (hle : shift ≤ 10) :
    ∃ c', c.bank (256 + r) = .ok c'
      ∧ (∀ A, 0x1000 ≤ A → A < 0x1400 →
          c'.mySystem.pageAccessTable (A >>> shift)
            = { directPeekBase :=
                  some (.ram (r % 32 * 1024 + (((A >>> shift) * 2 ^ shift) &&& 0x03FF))),
                directPokeBase := none, device := .cart3E })
      ∧ (∀ A, 0x1400 ≤ A → A < 0x1800 →
          c'.mySystem.pageAccessTable (A >>> shift)
            = { directPeekBase := none,
                directPokeBase :=
                  some (.ram (r % 32 * 1024 + (((A >>> shift) * 2 ^ shift) &&& 0x03FF))),
                device := .cart3E })
      ∧ (∀ A B, 0x1000 ≤ A → A < 0x1400 → 0x1400 ≤ B → B < 0x1800 →
          A >>> shift ≠ B >>> shift) := by
  refine ⟨_, bank_ram hu (Nat.le_add_right 256 r), fun A h1 h2 => ?_, fun A h1 h2 => ?_,
    fun A B _ hA hB _ => ports_disjoint shift A B hle hA hB⟩
  · show (mapRamPages c.mySystem _).pageAccessTable (A >>> shift) = _
    rw [mapRamPages_read c.mySystem _ shift A hshift hle h1 h2, Nat.add_sub_cancel_left, shl_10]
    rfl
  · show (mapRamPages c.mySystem _).pageAccessTable (A >>> shift) = _
    rw [mapRamPages_write c.mySystem _ shift A hshift hle h1 h2, Nat.add_sub_cancel_left, shl_10]
    rfl

/-- C16 fails for 2048-byte pages, a geometry `install` accepts
(`0x1800 & 0x07FF = 0`): 0x1000 and 0x1400 then lie in the same page 2, the
write-port loop of `bank` overwrites what the read-port loop stored there, and
after `install` and `bank(256 + 5)` the page that covers 0x1000-0x13FF has no
direct-read base and has the direct-write base `ram[5 * 1024]`. -/
theorem bank_ram_wide_pages_overlap :
    0x1800 &&& widePageSystem.pageMask = 0
      ∧ widePageSystem.pageMask = 2 ^ widePageSystem.pageShift - 1
      ∧ 0x1000 >>> widePageSystem.pageShift = 0x1400 >>> widePageSystem.pageShift
      ∧ ((widePageCart.install widePageSystem).bind (fun c => c.bank (256 + 5))).map
          (fun c => c.mySystem.pageAccessTable (0x1000 >>> widePageSystem.pageShift))
          = .ok { directPeekBase := none, directPokeBase := some (.ram (5 * 1024)),
                  device := .cart3E } :=
  ⟨by decide, by decide, by decide, rfl⟩

theorem mapRomPages_geometry (sys : System) (offset : Nat) :
    (mapRomPages sys offset).pageShift = sys.pageShift
      ∧ (mapRomPages sys offset).pageMask = sys.pageMask := by
  rw [mapRomPages_eq]
  exact ⟨rfl, rfl⟩

theorem mapRamPages_geometry (sys : System) (offset : Nat) :
    (mapRamPages sys offset).pageShift = sys.pageShift
      ∧ (mapRamPages sys offset).pageMask = sys.pageMask := by
  rw [mapRamPages_eq]
  exact ⟨rfl, rfl⟩

/-- What `bank` returns on an unlocked cartridge: only the selector, the
changed flag and the pages change, and the pages are those of the ROM slice or
of the RAM slice the new selector designates. -/
theorem bank_shape (c : Cartridge3E) (N n : Nat) (hS : c.mySize = 2048 * N) (hN : 0 < N)
    (hu : c.myBankLocked = false) :
    ∃ c', c.bank n = .ok c' ∧ c'.mySize = c.mySize ∧ c'.myImage = c.myImage
      ∧ c'.myRam = c.myRam ∧ c'.myBankLocked = c.myBankLocked
      ∧ ((c'.myCurrentBank < 256 ∧ c'.myCurrentBank < N
            ∧ c'.mySystem = mapRomPages c.mySystem (c'.myCurrentBank <<< 11))
          ∨ (256 ≤ c'.myCurrentBank ∧ c'.myCurrentBank < 288
            ∧ c'.mySystem = mapRamPages c.mySystem ((c'.myCurrentBank - 256) <<< 10))) := by
  by_cases hn : n < 256
  · refine ⟨_, bank_rom hS hN hu hn, rfl, rfl, rfl, rfl, Or.inl ⟨?_, ?_, rfl⟩⟩
    · exact lt_of_le_of_lt (Nat.mod_le n N) hn
    · exact Nat.mod_lt n hN
  · refine ⟨_, bank_ram hu (Nat.le_of_not_lt hn), rfl, rfl, rfl, rfl, Or.inr ⟨?_, ?_, ?_⟩⟩
    · exact Nat.le_add_left 256 _
    · show (n - 256) % 32 + 256 < 288
      omega
    · show mapRamPages c.mySystem _ = mapRamPages c.mySystem (((n - 256) % 32 + 256 - 256) <<< 10)
      rw [Nat.add_sub_cancel]

theorem install_mask (shift : Nat) (hle : shift ≤ 10) : 0x1800 &&& (2 ^ shift - 1) = 0 := by
  interval_cases shift <;> decide

/-- What `install` returns on an unlocked cartridge for pages of at most 1024
bytes: the pages of 0x1800-0x1FFF point into the last 2048 bytes of the
image. -/
theorem install_shape (c : Cartridge3E) (system : System) (N shift : Nat)
    (hS : c.mySize = 2048 * N) (hN : 0 < N) (hu : c.myBankLocked = false)
    (hshift : system.pageShift = shift) (hmask : system.pageMask = 2 ^ shift - 1)
    (hle : shift ≤ 10) :
    ∃ c1, c.install system = .ok c1 ∧ c1.mySize = c.mySize ∧ c1.myImage = c.myImage
      ∧ c1.myBankLocked = false ∧ c1.mySystem.pageShift = shift
      ∧ c1.mySystem.pageMask = 2 ^ shift - 1
      ∧ ∀ A, 0x1800 ≤ A → A < 0x2000 →
          c1.mySystem.pageAccessTable (A >>> shift)
            = topAccess c.mySize ((A >>> shift) * 2 ^ shift) := by
  obtain ⟨-, -, e3, e4⟩ := window_aligned shift hle
  have hm : 0x1800 &&& system.pageMask = 0 := by rw [hmask]; exact install_mask shift hle
  obtain ⟨sysI, hsysI⟩ : ∃ sysI, sysI = pageLoop system.pageShift 0x2000 (topAccess c.mySize)
      (0x2000 - 0x1800) 0x1800
      (pageLoop system.pageShift 0x40
        (fun _ => { device := .cart3E, directPeekBase := none, directPokeBase := none })
        0x40 0x00 system) := ⟨_, rfl⟩
  have hinst : c.install system = bank { c with mySystem := sysI } c.myStartBank := by
    unfold install
    simp only [ne_eq, hm, not_true_eq_false, if_false]
    rw [hsysI]
    rfl
  have hhot := pageLoop_eq system.pageShift 0x40
    (fun _ => { device := .cart3E, directPeekBase := none, directPokeBase := none })
    0x40 0x00 system (Nat.le_refl _)
  have hgeo : sysI.pageShift = shift ∧ sysI.pageMask = 2 ^ shift - 1 := by
    rw [hsysI, pageLoop_eq _ _ _ _ _ _ (Nat.le_refl _), hhot]
    exact ⟨hshift, hmask⟩
  have htop : ∀ A, 0x1800 ≤ A → A < 0x2000 →
      sysI.pageAccessTable (A >>> shift) = topAccess c.mySize ((A >>> shift) * 2 ^ shift) := by
    intro A h1 h2
    rw [hsysI, pageLoop_eq _ _ _ _ _ _ (Nat.le_refl _), hshift]
    exact loopTable_inside shift 0x2000 _ 0x1800 _ A _ _ e3 e4 h1 h2
  obtain ⟨c1, hb, hsz, him, -, hlk, hsys⟩ :=
    bank_shape { c with mySystem := sysI } N c.myStartBank hS hN hu
  refine ⟨c1, hinst.trans hb, hsz, him, hlk.trans hu, ?_, ?_, fun A h1 h2 => ?_⟩
  · rcases hsys with ⟨-, -, h⟩ | ⟨-, -, h⟩
    · rw [h]; exact (mapRomPages_geometry _ _).1.trans hgeo.1
    · rw [h]; exact (mapRamPages_geometry _ _).1.trans hgeo.1
  · rcases hsys with ⟨-, -, h⟩ | ⟨-, -, h⟩
    · rw [h]; exact (mapRomPages_geometry _ _).2.trans hgeo.2
    · rw [h]; exact (mapRamPages_geometry _ _).2.trans hgeo.2
  · rcases hsys with ⟨-, -, h⟩ | ⟨-, -, h⟩
    · rw [h, mapRomPages_outside _ _ shift A hgeo.1 hle (Or.inr h1)]
      exact htop A h1 h2
    · rw [h, mapRamPages_outside _ _ shift A hgeo.1 hle (Or.inr h1)]
      exact htop A h1 h2

/-- C17: the fast path agrees with the slow path. For pages of `2^shift ≤ 1024`
bytes (page mask `2^shift - 1`), after `install` and then `bank(n)` on an
unlocked cartridge whose image has `2048 * N` bytes (`N ≥ 1`, the size a
`uInt32`), for every address `a` in 0x1000-0x1FFF: if the page of `a` has a
direct-read base, the byte at `base + (a & pageMask)` is read in bounds and is
the byte `peek(a)` returns, and that `peek` changes nothing. The page has such
a base unless a RAM bank is selected and `a` lies in the write port. -/
theorem fast_path_agrees (c : Cartridge3E) (system : System) (N shift n a : Nat)
    (hS : c.mySize = 2048 * N) (hN : 0 < N) (h32 : c.mySize < 4294967296)
    (hu : c.myBankLocked = false) (hshift : system.pageShift = shift)
    (hmask : system.pageMask = 2 ^ shift - 1) (hle : shift ≤ 10)
    (ha1 : 0x1000 ≤ a) (ha2 : a < 0x2000) :
    ∃ c1 c2, c.install system = .ok c1 ∧ c1.bank n = .ok c2
      ∧ c2.mySystem.pageShift = shift ∧ c2.mySystem.pageMask = 2 ^ shift - 1
      ∧ (∀ base, (c2.mySystem.pageAccessTable (a >>> shift)).directPeekBase = some base →
          ∃ b, c2.directPeek base (a &&& (2 ^ shift - 1)) = .ok b ∧ c2.peek a = .ok (b, c2))
      ∧ (¬ (256 ≤ c2.myCurrentBank ∧ 0x1400 ≤ a ∧ a < 0x1800) →
          ∃ base, (c2.mySystem.pageAccessTable (a >>> shift)).directPeekBase = some base) := by
  obtain ⟨c1, hinst, hsz1, -, hlk1, hsh1, hmk1, htop1⟩ :=
    install_shape c system N shift hS hN hu hshift hmask hle
  have hS1 : c1.mySize = 2048 * N := hsz1.trans hS
  obtain ⟨c2, hbank, hsz2, -, -, -, hsys2⟩ := bank_shape c1 N n hS1 hN hlk1
  have hS2 : c2.mySize = 2048 * N := hsz2.trans hS1
  have h322 : c2.mySize < 4294967296 := by rw [hsz2, hsz1]; exact h32
  have hgeo2 : c2.mySystem.pageShift = shift ∧ c2.mySystem.pageMask = 2 ^ shift - 1 := by
    rcases hsys2 with ⟨-, -, h⟩ | ⟨-, -, h⟩
    · rw [h]
      exact ⟨(mapRomPages_geometry _ _).1.trans hsh1, (mapRomPages_geometry _ _).2.trans hmk1⟩
    · rw [h]
      exact ⟨(mapRamPages_geometry _ _).1.trans hsh1, (mapRamPages_geometry _ _).2.trans hmk1⟩
  have ha : a &&& 0x0FFF = a - 0x1000 := by rw [and_0FFF]; omega
  have h7 := page_offset_07FF shift a hle
  have h3 := page_offset_03FF shift a hle
  have hz7 := and_07FF_lt a
  have hz3 : a &&& 0x03FF < 1024 := by rw [and_03FF]; exact Nat.mod_lt a (by norm_num)
  refine ⟨c1, c2, hinst, hbank, hgeo2.1, hgeo2.2, ?_, ?_⟩
  · intro base hbase
    by_cases htopA : 0x1800 ≤ a
    · -- the fixed top slice
      have htab : c2.mySystem.pageAccessTable (a >>> shift)
          = topAccess c.mySize ((a >>> shift) * 2 ^ shift) := by
        rcases hsys2 with ⟨-, -, h⟩ | ⟨-, -, h⟩
        · rw [h, mapRomPages_outside _ _ shift a hsh1 hle (Or.inr htopA)]
          exact htop1 a htopA ha2
        · rw [h, mapRamPages_outside _ _ shift a hsh1 hle (Or.inr htopA)]
          exact htop1 a htopA ha2
      rw [htab] at hbase
      have hb := Option.some.inj hbase
      have hidx : ((c.mySize + 4294967296 - 2048) % 4294967296
            + (((a >>> shift) * 2 ^ shift) &&& 0x07FF)) % 4294967296 + (a &&& (2 ^ shift - 1))
          = c2.mySize - 2048 + (a &&& 0x07FF) := by
        rw [hsz2, hsz1]; omega
      have hlt : c2.mySize - 2048 + (a &&& 0x07FF) < c2.mySize := by omega
      refine ⟨c2.myImage (c2.mySize - 2048 + (a &&& 0x07FF)), ?_,
        peek_upper hS2 hN h322 (by omega)⟩
      rw [← hb]
      show c2.readImage _ = _
      rw [hidx]
      unfold readImage
      rw [if_pos hlt]
    · have hA2 : a < 0x1800 := Nat.lt_of_not_le htopA
      have hlow : a &&& 0x0FFF < 0x0800 := by omega
      rcases hsys2 with ⟨hrom, hcbN, h⟩ | ⟨hram, hcb, h⟩
      · -- a ROM bank in the lower window
        have htab := mapRomPages_inside c1.mySystem (c2.myCurrentBank <<< 11) shift a hsh1 hle
          ha1 hA2
        rw [h, htab] at hbase
        have hb := Option.some.inj hbase
        have hidx : c2.myCurrentBank <<< 11 + (((a >>> shift) * 2 ^ shift) &&& 0x07FF)
              + (a &&& (2 ^ shift - 1))
            = ((a &&& 0x0FFF) &&& 0x07FF) + (c2.myCurrentBank <<< 11) := by
          rw [and_0FFF_and_07FF]; omega
        have hlt : ((a &&& 0x0FFF) &&& 0x07FF) + (c2.myCurrentBank <<< 11) < c2.mySize := by
          rw [and_0FFF_and_07FF, shl_11, hS2]; omega
        refine ⟨c2.myImage (((a &&& 0x0FFF) &&& 0x07FF) + (c2.myCurrentBank <<< 11)), ?_,
          peek_rom_at hlow hrom rfl hlt⟩
        rw [← hb]
        show c2.readImage _ = _
        rw [hidx]
        unfold readImage
        rw [if_pos hlt]
      · by_cases hrd : a < 0x1400
        · -- the read port of a RAM bank
          have htab := mapRamPages_read c1.mySystem ((c2.myCurrentBank - 256) <<< 10) shift a
            hsh1 hle ha1 hrd
          rw [h, htab] at hbase
          have hb := Option.some.inj hbase
          have hidx : (c2.myCurrentBank - 256) <<< 10 + (((a >>> shift) * 2 ^ shift) &&& 0x03FF)
                + (a &&& (2 ^ shift - 1))
              = ((a &&& 0x0FFF) &&& 0x03FF) + ((c2.myCurrentBank - 256) <<< 10) := by
            rw [and_0FFF_and_03FF]; omega
          have hlt : ((a &&& 0x0FFF) &&& 0x03FF) + ((c2.myCurrentBank - 256) <<< 10)
              < ramSize := by
            rw [and_0FFF_and_03FF, shl_10]; unfold ramSize; omega
          refine ⟨c2.myRam (((a &&& 0x0FFF) &&& 0x03FF) + ((c2.myCurrentBank - 256) <<< 10)), ?_,
            peek_ram_at (by omega) (by omega) rfl hlt⟩
          rw [← hb]
          show c2.readRam _ = _
          rw [hidx]
          unfold readRam
          rw [if_pos hlt]
        · -- the write port of a RAM bank has no direct-read base
          have htab := mapRamPages_write c1.mySystem ((c2.myCurrentBank - 256) <<< 10) shift a
            hsh1 hle (Nat.le_of_not_lt hrd) hA2
          rw [h, htab] at hbase
          exact absurd hbase (by simp [ramWriteAccess])
  · intro hno
    by_cases htopA : 0x1800 ≤ a
    · rcases hsys2 with ⟨-, -, h⟩ | ⟨-, -, h⟩
      · rw [h, mapRomPages_outside _ _ shift a hsh1 hle (Or.inr htopA), htop1 a htopA ha2]
        exact ⟨_, rfl⟩
      · rw [h, mapRamPages_outside _ _ shift a hsh1 hle (Or.inr htopA), htop1 a htopA ha2]
        exact ⟨_, rfl⟩
    · have hA2 : a < 0x1800 := Nat.lt_of_not_le htopA
      rcases hsys2 with ⟨-, -, h⟩ | ⟨hram, -, h⟩
      · rw [h, mapRomPages_inside _ _ shift a hsh1 hle ha1 hA2]
        exact ⟨_, rfl⟩
      · have hrd : a < 0x1400 := by
          by_contra hge
          exact hno ⟨hram, Nat.le_of_not_lt hge, hA2⟩
        rw [h, mapRamPages_read _ _ shift a hsh1 hle ha1 hrd]
        exact ⟨_, rfl⟩

theorem fast_path_agrees_witness :
    ∃ c1 c2, (sampleCart 4 0 false).install sampleSystem = .ok c1 ∧ c1.bank 2 = .ok c2
      ∧ c2.mySystem.pageShift = 6 ∧ c2.mySystem.pageMask = 2 ^ 6 - 1
      ∧ (∀ base, (c2.mySystem.pageAccessTable (0x1234 >>> 6)).directPeekBase = some base →
          ∃ b, c2.directPeek base (0x1234 &&& (2 ^ 6 - 1)) = .ok b
            ∧ c2.peek 0x1234 = .ok (b, c2))
      ∧ (¬ (256 ≤ c2.myCurrentBank ∧ 0x1400 ≤ 0x1234 ∧ 0x1234 < 0x1800) →
          ∃ base, (c2.mySystem.pageAccessTable (0x1234 >>> 6)).directPeekBase = some base) :=
  fast_path_agrees (sampleCart 4 0 false) sampleSystem 4 6 2 0x1234 rfl (by decide) (by decide)
    rfl rfl (by decide) (by decide) (by decide) (by decide)

end Cartridge3E

end Stella
